import Mathlib

/-!
# kNet: endpoint value type, intrusive reference counting, message handler, logging

A shallow embedding of the kNet sources

* `include/kNet/EndPoint.hpp`      (struct `EndPoint`)
* `include/kNet/SharedPtr.hpp`     (class `RefCountable`, class template `SharedPtr`)
* `include/kNet/IMessageHandler.hpp` (`IMessageHandler::ComputeContentID`)
* `src/NetworkLogging.cpp`         (log channel filter and log sink)

followed by the properties established about them.

Conventions.  C++ unsigned integers of width `w` are natural numbers below `2 ^ w`;
a conversion to such a type is `% 2 ^ w`.  The `int` reference counter is an `Int`
together with an explicit check of the `INT_MAX` bound.  A function that can stop at
an `assert` returns the fault next to the object it was called on.  The member functions
of `SharedPtr` whose bodies are in `SharedPtr.inl` are modelled from the documentation of
their declarations in `SharedPtr.hpp`; the C library (`htons`, `sprintf`, `snprintf`), the
clock and the file system are modelled or taken as parameters where a function uses them.
The message delivery engine, of which `IMessageHandler.hpp` declares the callbacks, is
modelled from the specification of its receive and send steps.
-/

namespace kNet

/-! ## EndPoint.hpp -/

/-- The struct `EndPoint`: `unsigned char ip[4]` (fields `ip0` .. `ip3` are `ip[0]` ..
`ip[3]`) and `unsigned short port`. -/
structure EndPoint where
  ip0 : Nat
  ip1 : Nat
  ip2 : Nat
  ip3 : Nat
  port : Nat
deriving DecidableEq, Repr

namespace EndPoint

/-- The value range of the C++ field types: every `ip[i]` is an `unsigned char`
(`0 .. 255`) and `port` an `unsigned short` (`0 .. 65535`). -/
def WellFormed (e : EndPoint) : Prop :=
  e.ip0 < 256 ∧ e.ip1 < 256 ∧ e.ip2 < 256 ∧ e.ip3 < 256 ∧ e.port < 65536

instance (e : EndPoint) : Decidable e.WellFormed := by
  unfold WellFormed; exact inferInstance

/-- The method `void Reset() { memset(this, 0, sizeof(EndPoint)); }`. -/
def Reset (_e : EndPoint) : EndPoint :=
  { ip0 := 0, ip1 := 0, ip2 := 0, ip3 := 0, port := 0 }

/-- The constructor `EndPoint() { Reset(); }`; the fields are indeterminate before the
call, so the object `Reset` runs on is arbitrary. -/
def new (uninit : EndPoint) : EndPoint := Reset uninit

/-- The method `bool operator<(const EndPoint& rhs) const`, statement by statement. -/
def lt (e rhs : EndPoint) : Bool :=
  if e.ip0 < rhs.ip0 then true
  else if e.ip0 > rhs.ip0 then false
  else if e.ip1 < rhs.ip1 then true
  else if e.ip1 > rhs.ip1 then false
  else if e.ip2 < rhs.ip2 then true
  else if e.ip2 > rhs.ip2 then false
  else if e.ip3 < rhs.ip3 then true
  else if e.ip3 > rhs.ip3 then false
  else if e.port < rhs.port then true
  else if e.port > rhs.port then false
  else false

/-- The tuple `(ip[0], ip[1], ip[2], ip[3], port)` of an endpoint. -/
def toTuple (e : EndPoint) : List Nat := [e.ip0, e.ip1, e.ip2, e.ip3, e.port]

/-- Specification side of the comparison: strict lexicographic order of the tuples
`(ip[0], ip[1], ip[2], ip[3], port)` over the unsigned values. -/
def LexLess (e1 e2 : EndPoint) : Prop :=
  List.Lex (fun a b : Nat => a < b) e1.toTuple e2.toTuple

end EndPoint

/-- The socket address `sockaddr_in` of `<netinet/in.h>`: `sin_family` (16 bit),
`sin_port` (16 bit, network byte order), `sin_addr.s_addr` (32 bit) and the eight padding
bytes `sin_zero`. -/
structure sockaddr_in where
  sin_family : Nat
  sin_port : Nat
  s_addr : Nat
  sin_zero : List Nat
deriving DecidableEq, Repr

/-- The address family constant `AF_INET` of `<sys/socket.h>`. -/
def AF_INET : Nat := 2

/-- Exchange of the two bytes of a 16-bit value. -/
def byteSwap16 (x : Nat) : Nat := (x % 256) * 256 + (x / 256) % 256

/-- The POSIX function `htons`: host to network (big-endian) byte order of a 16-bit
value.  On a little-endian host the two bytes are exchanged, on a big-endian host the
value is returned as it is. -/
def htons (hostLittleEndian : Bool) (x : Nat) : Nat :=
  if hostLittleEndian then byteSwap16 (x % 65536) else x % 65536

/-- The POSIX function `ntohs`: network to host byte order of a 16-bit value. -/
def ntohs (hostLittleEndian : Bool) (x : Nat) : Nat :=
  if hostLittleEndian then byteSwap16 (x % 65536) else x % 65536

/-- The 32-bit pattern of an `int` value computed as `x`: C++ `int` expressions are
represented by their two's complement bit pattern. -/
def int32 (x : Nat) : Nat := x % 2 ^ 32

/-- Conversion of a 32-bit pattern to `in_addr_t` (`uint32_t`). -/
def toUInt32 (x : Nat) : Nat := x % 2 ^ 32

/-- Assignment to an `unsigned char`. -/
def toUChar (x : Nat) : Nat := x % 256

namespace EndPoint

/-- The function `static EndPoint FromSockAddrIn(const sockaddr_in& addr)`, in the branch
compiled when `_WIN32` is not defined. -/
def FromSockAddrIn (hostLittleEndian : Bool) (addr : sockaddr_in) : EndPoint :=
  { ip0 := toUChar (addr.s_addr &&& 0xFF)
    ip1 := toUChar ((addr.s_addr >>> 8) &&& 0xFF)
    ip2 := toUChar ((addr.s_addr >>> 16) &&& 0xFF)
    ip3 := toUChar ((addr.s_addr >>> 24) &&& 0xFF)
    port := ntohs hostLittleEndian addr.sin_port }

/-- The method `sockaddr_in ToSockAddrIn() const`, in the branch compiled when `_WIN32`
is not defined.  The operands `ip[i]` are promoted to `int`, shifted and or-ed as `int`,
and the result is converted to the unsigned 32-bit `s_addr`. -/
def ToSockAddrIn (hostLittleEndian : Bool) (e : EndPoint) : sockaddr_in :=
  { sin_family := AF_INET
    sin_port := htons hostLittleEndian e.port
    s_addr := toUInt32 (e.ip0 ||| int32 (e.ip1 <<< 8) ||| int32 (e.ip2 <<< 16) |||
      int32 (e.ip3 <<< 24))
    sin_zero := List.replicate 8 0 }

end EndPoint

/-! ### Text form -/

/-- The `%d` conversion of `printf`: the argument is read as an `int` (given here by its
32-bit pattern) and written in decimal, with a minus sign when it is negative. -/
def printfD (arg : Nat) : List Char :=
  if arg < 2 ^ 31 then Nat.toDigits 10 arg else '-' :: Nat.toDigits 10 (2 ^ 32 - arg)

/-- The text `printf` produces for a format made of ordinary characters and `%d`
directives; `none` for any other directive or a missing argument. -/
def vformat : List Char → List Nat → Option (List Char)
  | [], _ => some []
  | '%' :: 'd' :: fmt, arg :: args => (vformat fmt args).map (fun out => printfD arg ++ out)
  | '%' :: _, _ => none
  | c :: fmt, args => (vformat fmt args).map (fun out => c :: out)

/-- The C library function `sprintf(str, fmt, ...)` for a destination `char str[size]`:
the buffer holds the text and its terminating NUL; `none` when they do not fit (a write
beyond the array is undefined). -/
def sprintf (size : Nat) (fmt : String) (args : List Nat) : Option (List Char) :=
  match vformat fmt.toList args with
  | some out => if out.length + 1 ≤ size then some (out ++ [Char.ofNat 0]) else none
  | none => none

/-- The constructor `std::string(const char*)`: the characters before the first NUL. -/
def stdString (str : List Char) : String :=
  String.mk (str.takeWhile (fun c => c != Char.ofNat 0))

namespace EndPoint

/-- The method `std::string IPToString() const`: `sprintf` into `char str[256]` with the
four bytes cast to `unsigned int`, then `std::string(str)`. -/
def IPToString (e : EndPoint) : Option String :=
  (sprintf 256 "%d.%d.%d.%d"
    [toUInt32 e.ip0, toUInt32 e.ip1, toUInt32 e.ip2, toUInt32 e.ip3]).map stdString

/-- The method `std::string ToString() const`. -/
def ToString (e : EndPoint) : Option String :=
  (sprintf 256 "%d.%d.%d.%d:%d"
    [toUInt32 e.ip0, toUInt32 e.ip1, toUInt32 e.ip2, toUInt32 e.ip3,
      toUInt32 e.port]).map stdString

end EndPoint

/-- The number a string of decimal digits denotes. -/
def decimalValue (s : List Char) : Nat :=
  s.foldl (fun acc c => 10 * acc + (c.toNat - 48)) 0

/-- Specification side of the text form: `s` is the number `n` written in decimal without
leading zeros (a non-empty string of digits that denotes `n` and starts with `0` only
when it is the single digit `0`). -/
def IsDecimalOf (s : List Char) (n : Nat) : Prop :=
  s ≠ [] ∧ (∀ c ∈ s, c.isDigit = true) ∧ (s.head? = some '0' → s = ['0']) ∧
    decimalValue s = n

instance (s : List Char) (n : Nat) : Decidable (IsDecimalOf s n) := by
  unfold IsDecimalOf; exact inferInstance

/-! ## SharedPtr.hpp -/

/-- Why a call did not return: an `assert` failed, or a signed `int` operation left the
range of `int` (undefined in C++). -/
inductive Fault where
  | assertion
  | overflow
deriving DecidableEq, Repr

/-- The outcome of a call on an object of type `α`: the fault that stopped it, if any, and
the object as the call left it. -/
structure Call (α : Type) where
  fault : Option Fault
  state : α
deriving DecidableEq, Repr

/-- The largest value of the C++ type `int`. -/
def INT_MAX : Int := 2147483647

/-- The class `RefCountable`: its only data member is `int refCount`. -/
structure RefCountable where
  refCount : Int
deriving DecidableEq, Repr

namespace RefCountable

/-- The constructor `RefCountable() : refCount(0) {}`. -/
def new : RefCountable := { refCount := 0 }

/-- The destructor `~RefCountable()`, which sets `refCount = -100000`. -/
def destroy (_r : RefCountable) : RefCountable := { refCount := -100000 }

/-- The method `void AddRef() { assert(refCount >= 0); ++refCount; }`.  The increment of an
`int` holding `INT_MAX` is a signed overflow, which C++ leaves undefined: it is reported as
`Fault.overflow`, with the object as the call found it. -/
def AddRef (r : RefCountable) : Call RefCountable :=
  if r.refCount ≥ 0 then
    if r.refCount + 1 ≤ INT_MAX then { fault := none, state := { refCount := r.refCount + 1 } }
    else { fault := some Fault.overflow, state := r }
  else { fault := some Fault.assertion, state := r }

/-- The method `void DecRef() { assert(refCount > 0); --refCount; }`.  After the assertion
the decrement cannot leave the range of `int`. -/
def DecRef (r : RefCountable) : Call RefCountable :=
  if r.refCount > 0 then { fault := none, state := { refCount := r.refCount - 1 } }
  else { fault := some Fault.assertion, state := r }

/-- The method `int RefCount() const { return refCount; }`. -/
def RefCount (r : RefCountable) : Int := r.refCount

end RefCountable

/-- A call of one of the two counting methods. -/
inductive RefOp where
  | addRef
  | decRef
deriving DecidableEq, Repr

/-- One call of `AddRef` or `DecRef` on a `RefCountable`. -/
def RefCountable.call (op : RefOp) (r : RefCountable) : Call RefCountable :=
  match op with
  | RefOp.addRef => r.AddRef
  | RefOp.decRef => r.DecRef

/-- A sequence of calls on one `RefCountable`, in program order; the first call that does
not return ends the run. -/
def RefCountable.run : List RefOp → RefCountable → Call RefCountable
  | [], r => { fault := none, state := r }
  | op :: ops, r =>
    match (RefCountable.call op r).fault with
    | none => RefCountable.run ops (RefCountable.call op r).state
    | some _ => RefCountable.call op r

/-- The number of `AddRef` calls minus the number of `DecRef` calls of a sequence. -/
def netCount (ops : List RefOp) : Int :=
  (ops.count RefOp.addRef : Int) - (ops.count RefOp.decRef : Int)

/-- An operation of a handle on the object it points to: `SharedPtr<T>::AddRef()`, which
adds a reference, or `SharedPtr<T>::Release()`, which gives one up. -/
inductive HandleCall where
  | addRef
  | release
deriving DecidableEq, Repr

/-- The number of `AddRef` operations minus the number of `Release` operations of a
sequence of handle operations. -/
def netHandleCount (ops : List HandleCall) : Int :=
  (ops.count HandleCall.addRef : Int) - (ops.count HandleCall.release : Int)

/-- An object on the heap whose class derives from `RefCountable`: the counter it
inherits, and how many times `delete` has destroyed it. -/
structure Referent where
  counter : RefCountable
  destroyed : Nat
deriving DecidableEq, Repr

namespace Referent

/-- A newly constructed object (`new T`): the `RefCountable` constructor has run and the
object has not been destroyed. -/
def new : Referent := { counter := RefCountable.new, destroyed := 0 }

/-- The expression `delete dataPtr` that `SharedPtr<T>::Release()` evaluates: the destructor
of the object runs, and with it `~RefCountable()`; the count of destructions is
bookkeeping of the model. -/
def delete (o : Referent) : Referent :=
  { counter := o.counter.destroy, destroyed := o.destroyed + 1 }

/-- Modelled from the spec: the body of `SharedPtr<T>::AddRef()` (file `SharedPtr.inl`,
declared as "Increases reference count"), seen from the referent: it calls
`RefCountable::AddRef` on it. -/
def addRef (o : Referent) : Call Referent :=
  { fault := o.counter.AddRef.fault, state := { o with counter := o.counter.AddRef.state } }

/-- Modelled from the spec: the body of `SharedPtr<T>::Release()` (file `SharedPtr.inl`,
declared as "Decreases reference count and deletes the object if 0"), seen from the
referent: `DecRef()`, then `delete` when `RefCount()` is 0 ("the object is destroyed
exactly when the counter transitions to zero"). -/
def release (o : Referent) : Call Referent :=
  match o.counter.DecRef.fault with
  | some f => { fault := some f, state := { o with counter := o.counter.DecRef.state } }
  | none =>
    if o.counter.DecRef.state.RefCount = 0 then
      { fault := none, state := delete { o with counter := o.counter.DecRef.state } }
    else { fault := none, state := { o with counter := o.counter.DecRef.state } }

/-- Modelled from the spec: one operation a handle makes on its referent, through
`SharedPtr<T>::AddRef()` or through `SharedPtr<T>::Release()`. -/
def call (op : HandleCall) (o : Referent) : Call Referent :=
  match op with
  | HandleCall.addRef => o.addRef
  | HandleCall.release => o.release

/-- A sequence of handle operations on one referent, in program order; the first one that
does not return ends the run. -/
def run : List HandleCall → Referent → Call Referent
  | [], o => { fault := none, state := o }
  | op :: ops, o =>
    match (call op o).fault with
    | none => run ops (call op o).state
    | some _ => call op o

end Referent

/-- The state a run that returned leaves a fresh referent in: either it is alive with the
net count of the operations as its count, or the last operation was the `Release` that
found the count 1 and destroyed it. -/
def Referent.RunInv (ops : List HandleCall) (o : Referent) : Prop :=
  (o.destroyed = 0 ∧ o.counter.refCount = netHandleCount ops ∧
    (ops ≠ [] → 1 ≤ o.counter.refCount)) ∨
  (o.destroyed = 1 ∧ o.counter.refCount = -100000 ∧ netHandleCount ops = 0 ∧
    ∃ pre, ops = pre ++ [HandleCall.release] ∧ (Referent.run pre Referent.new).fault = none ∧
      (Referent.run pre Referent.new).state.destroyed = 0 ∧
      (Referent.run pre Referent.new).state.counter.refCount = 1)

/-- The class template `SharedPtr<T>`: its only data member is `T* dataPtr`, an address
(0 is the null pointer). -/
structure SharedPtr where
  dataPtr : Nat
deriving DecidableEq, Repr

/-- The heap: the object found at each address. -/
abbrev Heap := Nat → Referent

namespace SharedPtr

/-- The constructor `SharedPtr() : dataPtr(0) {}`. -/
def null : SharedPtr := { dataPtr := 0 }

/-- Modelled from the spec: `SharedPtr<T>::AddRef()` (file `SharedPtr.inl`): increases the
reference count of the referent; "a null handle never touches the referent". -/
def AddRef (p : SharedPtr) (h : Heap) : Call Heap :=
  if p.dataPtr = 0 then { fault := none, state := h }
  else
    { fault := (h p.dataPtr).addRef.fault
      state := Function.update h p.dataPtr (h p.dataPtr).addRef.state }

/-- Modelled from the spec: `SharedPtr<T>::Release()` (file `SharedPtr.inl`): decreases the
reference count, deletes the object if it is 0, and leaves the handle null; a null handle
does nothing.  The state is the handle and the heap after the call. -/
def Release (p : SharedPtr) (h : Heap) : Call (SharedPtr × Heap) :=
  if p.dataPtr = 0 then { fault := none, state := (p, h) }
  else
    match (h p.dataPtr).release.fault with
    | none =>
      { fault := none, state := (null, Function.update h p.dataPtr (h p.dataPtr).release.state) }
    | some f =>
      { fault := some f, state := (p, Function.update h p.dataPtr (h p.dataPtr).release.state) }

/-- Modelled from the spec: the constructor `SharedPtr(T* ptr)` (file `SharedPtr.inl`):
"constructing/copying a handle increments the referent's count exactly once". -/
def fromRaw (ptr : Nat) (h : Heap) : Call (SharedPtr × Heap) :=
  { fault := (AddRef { dataPtr := ptr } h).fault
    state := ({ dataPtr := ptr }, (AddRef { dataPtr := ptr } h).state) }

/-- Modelled from the spec: the copy constructor `SharedPtr(const SharedPtr<T>& rhs)` (file
`SharedPtr.inl`): the new handle takes the pointer of `rhs` and adds a reference. -/
def copy (rhs : SharedPtr) (h : Heap) : Call (SharedPtr × Heap) :=
  fromRaw rhs.dataPtr h

/-- Modelled from the spec: the destructor `~SharedPtr()` (file `SharedPtr.inl`, declared as
"Releases use of the object"): it calls `Release()`. -/
def drop (p : SharedPtr) (h : Heap) : Call (SharedPtr × Heap) :=
  Release p h

end SharedPtr

/-- A program state: the heap and the handle variables of the program, by position. -/
structure Handles where
  heap : Heap
  handles : List SharedPtr

/-- An operation of a program on its handle variables: create a handle from a raw pointer,
copy the handle at a position into a new variable, or drop the handle at a position. -/
inductive HandleOp where
  | create (ptr : Nat)
  | copy (i : Nat)
  | drop (i : Nat)
deriving DecidableEq, Repr

namespace Handles

/-- One operation on the handle variables.  A position that names no variable does
nothing; a dropped variable stays in place as the null handle `Release` leaves. -/
def step (op : HandleOp) (w : Handles) : Call Handles :=
  match op with
  | HandleOp.create ptr =>
    { fault := (SharedPtr.fromRaw ptr w.heap).fault
      state := { heap := (SharedPtr.fromRaw ptr w.heap).state.2
                 handles := w.handles ++ [(SharedPtr.fromRaw ptr w.heap).state.1] } }
  | HandleOp.copy i =>
    match w.handles[i]? with
    | none => { fault := none, state := w }
    | some p =>
      { fault := (SharedPtr.copy p w.heap).fault
        state := { heap := (SharedPtr.copy p w.heap).state.2
                   handles := w.handles ++ [(SharedPtr.copy p w.heap).state.1] } }
  | HandleOp.drop i =>
    match w.handles[i]? with
    | none => { fault := none, state := w }
    | some p =>
      { fault := (SharedPtr.drop p w.heap).fault
        state := { heap := (SharedPtr.drop p w.heap).state.2
                   handles := w.handles.set i (SharedPtr.drop p w.heap).state.1 } }

/-- A sequence of operations on the handle variables, in program order; the first one that
does not return ends the run. -/
def run : List HandleOp → Handles → Call Handles
  | [], w => { fault := none, state := w }
  | op :: ops, w =>
    match (step op w).fault with
    | none => run ops (step op w).state
    | some _ => step op w

/-- The number of handle variables that point to the address `a`. -/
def live (a : Nat) (w : Handles) : Nat :=
  w.handles.countP (fun p => p.dataPtr = a)

end Handles

/-- The handle variables that point to the address `a` are counted by the object there:
while there is one the object is not destroyed and its count is their number, and when
there is none the object has been destroyed once. -/
def Handles.Counted (a : Nat) (w : Handles) : Prop :=
  (0 < Handles.live a w ∧ (w.heap a).destroyed = 0 ∧
    (w.heap a).counter.refCount = (Handles.live a w : Int)) ∨
  (Handles.live a w = 0 ∧ (w.heap a).destroyed = 1 ∧ (w.heap a).counter.refCount = -100000)

/-- Each copy in a sequence is made from a handle variable that exists at that time, when
there are `m` variables before the first one. -/
def ValidCopies : Nat → List Nat → Prop
  | _, [] => True
  | m, src :: rest => src < m ∧ ValidCopies (m + 1) rest

instance ValidCopies.decidable : ∀ (m : Nat) (srcs : List Nat), Decidable (ValidCopies m srcs)
  | _, [] => isTrue trivial
  | m, src :: rest =>
    have := ValidCopies.decidable (m + 1) rest
    inferInstanceAs (Decidable (src < m ∧ ValidCopies (m + 1) rest))

/-! ## IMessageHandler.hpp -/

/-- The default implementation of the virtual method
`u32 ComputeContentID(message_id_t messageId, const char* data, size_t numBytes)`:
its body is `return 0;`.  The buffer is `none` for a null pointer. -/
def IMessageHandler.ComputeContentID (_messageId : Nat) (_data : Option (List Nat))
    (_numBytes : Nat) : Nat :=
  0

/-! ## NetworkLogging.cpp -/

/-- What the clock of `Clock.hpp` answers during one call: the value of `Clock::Tick()`, and
for each first tick the text that `ss << Clock::SecondsSinceD(firstTick)` produces. -/
structure Clock where
  tick : Nat
  secondsSince : Nat → String

/-- The file-scope state of `NetworkLogging.cpp` and the streams it writes to:
`kNetActiveLogChannels`, the stream `kNetLogFile` (the path of the file it has open, if
any), the statics `firstTick` and `firstCall` of `Time()`, the text of every file and the
text of `std::cout`. -/
structure LogState where
  kNetActiveLogChannels : Nat
  kNetLogFile : Option String
  firstTick : Nat
  firstCall : Bool
  files : String → String
  cout : String

namespace LogState

/-- The state at program start: `kNetActiveLogChannels = LogUser` (the constant `LogUser`
of `NetworkLogging.hpp` is a parameter), `kNetLogFile` not open, `firstCall = true`. -/
def initial (LogUser : Nat) (files : String → String) : LogState :=
  { kNetActiveLogChannels := LogUser, kNetLogFile := none, firstTick := 0, firstCall := true,
    files := files, cout := "" }

/-- The function `string Time()` of the unnamed namespace: the text it returns and the
state of its statics after the call. -/
def Time (clock : Clock) (s : LogState) : String × LogState :=
  if s.firstCall then ("0.000", { s with firstCall := false, firstTick := clock.tick })
  else (clock.secondsSince s.firstTick, s)

/-- The function `bool IsLogChannelActive(LogChannel channel)`. -/
def IsLogChannelActive (channel : Nat) (s : LogState) : Bool :=
  (channel &&& s.kNetActiveLogChannels) != 0

/-- The function `void SetLogChannels(LogChannel logChannels)`. -/
def SetLogChannels (logChannels : Nat) (s : LogState) : LogState :=
  { s with kNetActiveLogChannels := logChannels }

/-- The function `LogChannel GetLogChannels()`. -/
def GetLogChannels (s : LogState) : Nat := s.kNetActiveLogChannels

/-- The statement `if (kNetLogFile.is_open()) kNetLogFile << Time() << ": " << errorStr <<
std::endl; else std::cout << Time() << ": " << errorStr << std::endl;` shared by the two
logging functions. -/
def writeLine (clock : Clock) (errorStr : String) (s : LogState) : LogState :=
  match s.kNetLogFile with
  | some path =>
    { (Time clock s).2 with
      files := Function.update s.files path
        (s.files path ++ ((Time clock s).1 ++ ": " ++ errorStr ++ "\n")) }
  | none =>
    { (Time clock s).2 with cout := s.cout ++ ((Time clock s).1 ++ ": " ++ errorStr ++ "\n") }

/-- The text the `snprintf` family stores for a size argument `size`: at most `size - 1`
characters of the formatted text (the last byte is the terminating NUL). -/
def snprintfText (size : Nat) (text : String) : String :=
  String.mk (text.data.take (size - 1))

/-- The function `void TimeOutputDebugStringVariadic(LogChannel logChannel, const char*
filename, int lineNumber, const char* msg, ...)`.  The text that `vsnprintf` makes of `msg`
and the variadic arguments is the parameter `expansion`; `errorStr` receives at most 1022
characters of it. -/
def TimeOutputDebugStringVariadic (clock : Clock) (logChannel : Nat) (_filename : String)
    (_lineNumber : Int) (_msg : String) (expansion : String) (s : LogState) : LogState :=
  if !IsLogChannelActive logChannel s then s
  else writeLine clock (snprintfText 1023 expansion) s

/-- The function `void TimeOutputDebugString(LogChannel logChannel, const char* filename,
int lineNumber, const char* msg)`; `_snprintf(errorStr, 1023, "%s", msg)` copies at most
1022 characters of `msg`. -/
def TimeOutputDebugString (clock : Clock) (logChannel : Nat) (_filename : String)
    (_lineNumber : Int) (msg : String) (s : LogState) : LogState :=
  if (logChannel &&& s.kNetActiveLogChannels) = 0 then s
  else writeLine clock (snprintfText 1023 msg) s

/-- The function `void SetLogFile(const char* filename)`: `kNetLogFile.close()`, then
`kNetLogFile.open(filename, ios::app)` when `filename` is neither null (`none`) nor empty.
Whether the file system lets the file be opened is the parameter `opens`. -/
def SetLogFile (filename : Option String) (opens : Bool) (s : LogState) : LogState :=
  match filename with
  | some name =>
    if name.length > 0 then
      if opens then { s with kNetLogFile := some name } else { s with kNetLogFile := none }
    else { s with kNetLogFile := none }
  | none => { s with kNetLogFile := none }

/-- The text of the stream the next log line goes to. -/
def sinkText (s : LogState) : String :=
  match s.kNetLogFile with
  | some path => s.files path
  | none => s.cout

end LogState

/-! ## SharedPtr.hpp: comparison of handles -/

namespace SharedPtr

/-- Modelled from the spec: the accessors `const T* ptr() const` and `T* ptr()` (file
`SharedPtr.inl`, declared as "Const access to the pointer" and "Returns a pointer to the
object or 0 if empty"): they return `dataPtr`. -/
def ptr (p : SharedPtr) : Nat := p.dataPtr

/-- The function template
`bool operator==(const SharedPtr<T>& a, const SharedPtr<T>& b)`:
`if (a.ptr() == b.ptr()) return true; else return false;`. -/
def operator_eq (a b : SharedPtr) : Bool :=
  if a.ptr = b.ptr then true else false

end SharedPtr

/-! ## EndPoint.hpp: socket addresses in range -/

/-- The value range of the C field types of `sockaddr_in`: `sin_port` is 16 bits wide and
`sin_addr.s_addr` 32 bits. -/
def sockaddr_in.InRange (a : sockaddr_in) : Prop :=
  a.sin_port < 65536 ∧ a.s_addr < 2 ^ 32

instance (a : sockaddr_in) : Decidable a.InRange := by
  unfold sockaddr_in.InRange; exact inferInstance

/-! ## Message delivery engine

The engine itself is not among the sources; `IMessageHandler.hpp` declares the callbacks it
invokes.  Its receive path and its send queue are modelled from the specification. -/

/-- Modelled from the spec: a message record of the engine (the "message envelope"): the
message identifier (application-chosen type tag), the content ID (0 is "no content ID")
and the payload bytes. -/
structure Message where
  messageId : Nat
  contentID : Nat
  payload : List Nat
deriving DecidableEq, Repr

/-- Modelled from the spec: a transmitted unit, which "carries a packet identifier and one
or more message records". -/
structure Packet where
  packetId : Nat
  messages : List Message
deriving DecidableEq, Repr

/-- The arguments of one invocation of `IMessageHandler::HandleMessage`: `packetId`,
`messageId`, the bytes at `data` and `numBytes`.  The argument `source` is the connection
itself, of which the model has one. -/
structure Callback where
  packetId : Nat
  messageId : Nat
  data : List Nat
  numBytes : Nat
deriving DecidableEq, Repr

/-- Modelled from the spec: the receive state of one connection, "highest-seen inbound
packet identifier(s) for duplicate/out-of-order detection": the identifiers already
processed, in the order they were processed, and the last identifier delivered in order;
with them, the invocations of `HandleMessage` made so far, in order. -/
structure Receiver where
  processed : List Nat
  lastDelivered : Option Nat
  callbacks : List Callback
deriving DecidableEq, Repr

namespace Receiver

/-- The receive state of a new connection. -/
def initial : Receiver := { processed := [], lastDelivered := none, callbacks := [] }

/-- Modelled from the spec: "the packet identifier is older than the last delivered-in-order
identifier". -/
def isStale (r : Receiver) (packetId : Nat) : Bool :=
  match r.lastDelivered with
  | some last => decide (packetId < last)
  | none => false

/-- Modelled from the spec: "the contained message(s) are dispatched to the application's
message-handling callback together with the packet identifier and message identifier":
one invocation of `HandleMessage` for each message of the packet, in order. -/
def dispatch (p : Packet) : List Callback :=
  p.messages.map (fun m =>
    { packetId := p.packetId, messageId := m.messageId, data := m.payload,
      numBytes := m.payload.length })

/-- Modelled from the spec: the receive step of the engine.  "On packet arrival, the engine
reads the packet identifier.  If it duplicates an already-processed identifier, the packet
is silently discarded.  If ordering is requested and the packet identifier is older than
the last delivered-in-order identifier for that stream, it is discarded as stale.
Otherwise the contained message(s) are dispatched to the application's message-handling
callback together with the packet identifier and message identifier." -/
def receive (ordered : Bool) (p : Packet) (r : Receiver) : Receiver :=
  if p.packetId ∈ r.processed then r
  else if ordered && r.isStale p.packetId then r
  else
    { processed := r.processed ++ [p.packetId]
      lastDelivered := some p.packetId
      callbacks := r.callbacks ++ dispatch p }

/-- The receive step for each packet of an arrival sequence, in order of arrival. -/
def receiveAll (ordered : Bool) : List Packet → Receiver → Receiver
  | [], r => r
  | p :: rest, r => receiveAll ordered rest (receive ordered p r)

end Receiver

/-- Modelled from the spec: the send state of one connection: the "next outbound packet
identifier (monotonic)" and the outbound queue of pending messages. -/
structure Sender where
  nextPacketId : Nat
  queue : List Message
deriving DecidableEq, Repr

namespace Sender

/-- Modelled from the spec: the send step of the engine.  "If the message declares a
content ID and a message with that same non-zero content ID is already pending for that
connection, the new message replaces the old one in the outbound queue rather than being
appended"; "a message with content ID 0 is never deduplicated/replaced - every such send is
queued independently". -/
def send (m : Message) (s : Sender) : Sender :=
  if m.contentID ≠ 0 ∧ ∃ q ∈ s.queue, q.contentID = m.contentID then
    { s with queue := s.queue.map (fun q => if q.contentID = m.contentID then m else q) }
  else { s with queue := s.queue ++ [m] }

/-- Modelled from the spec: the packets for a list of queued messages: "the engine assigns
the message to the next outbound packet identifier", one packet for each message. -/
def packets : Nat → List Message → List Packet
  | _, [] => []
  | next, m :: rest => { packetId := next, messages := [m] } :: packets (next + 1) rest

/-- Modelled from the spec: transmission of the outbound queue: the packets sent and the
send state afterwards. -/
def transmit (s : Sender) : List Packet × Sender :=
  (packets s.nextPacketId s.queue,
    { nextPacketId := s.nextPacketId + s.queue.length, queue := [] })

/-- At most one pending message for each non-zero content ID. -/
def UniqueContent (queue : List Message) : Prop :=
  ∀ c : Nat, c ≠ 0 → queue.countP (fun q => q.contentID = c) ≤ 1

end Sender

/-- Modelled from the spec: the message the engine queues for an application with a given
handler; its content ID is "computed by the application's content-ID function", the
handler's `ComputeContentID`. -/
def Message.make (computeContentID : Nat → Option (List Nat) → Nat → Nat) (messageId : Nat)
    (payload : List Nat) : Message :=
  { messageId := messageId
    contentID := computeContentID messageId (some payload) payload.length
    payload := payload }

end kNet

/-! # Properties -/

namespace kNet

/-! ## Properties of `EndPoint::operator<` -/

/-- One rung of the comparison ladder: `if (a < b) return true; if (a > b) return false;`
followed by the rest of the function. -/
theorem ltStep_iff (a b : Nat) (rest : Bool) :
    (if a < b then true else if a > b then false else rest) = true ↔
      a < b ∨ (a = b ∧ rest = true) := by
  split_ifs with h1 h2
  · simp [h1]
  · simp; omega
  · have : a = b := by omega
    simp [this]

theorem EndPoint.lt_iff (e rhs : EndPoint) :
    e.lt rhs = true ↔
      e.ip0 < rhs.ip0 ∨ (e.ip0 = rhs.ip0 ∧ (e.ip1 < rhs.ip1 ∨ (e.ip1 = rhs.ip1 ∧
        (e.ip2 < rhs.ip2 ∨ (e.ip2 = rhs.ip2 ∧ (e.ip3 < rhs.ip3 ∨
          (e.ip3 = rhs.ip3 ∧ e.port < rhs.port))))))) := by
  unfold EndPoint.lt
  rw [ltStep_iff, ltStep_iff, ltStep_iff, ltStep_iff, ltStep_iff]
  simp

/-- C1. `EndPoint::operator<` is a strict total order: it is irreflexive, transitive, and
for every two endpoints exactly one of `e1 < e2`, `e2 < e1`, "all four ip bytes and the
port are equal" holds. -/
theorem EndPoint.lt_strict_total_order :
    (∀ e : EndPoint, e.lt e = false) ∧
    (∀ e1 e2 e3 : EndPoint, e1.lt e2 = true → e2.lt e3 = true → e1.lt e3 = true) ∧
    (∀ e1 e2 : EndPoint,
      (e1.lt e2 = true ∧ e2.lt e1 = false ∧ e1 ≠ e2) ∨
      (e1.lt e2 = false ∧ e2.lt e1 = true ∧ e1 ≠ e2) ∨
      (e1.lt e2 = false ∧ e2.lt e1 = false ∧
        e1.ip0 = e2.ip0 ∧ e1.ip1 = e2.ip1 ∧ e1.ip2 = e2.ip2 ∧ e1.ip3 = e2.ip3 ∧
        e1.port = e2.port)) := by
  refine ⟨?_, ?_, ?_⟩
  · intro e
    rw [← Bool.not_eq_true, EndPoint.lt_iff]
    omega
  · intro e1 e2 e3 h12 h23
    rw [EndPoint.lt_iff] at h12 h23 ⊢
    omega
  · intro e1 e2
    have hne : e1 ≠ e2 ↔ ¬ (e1.ip0 = e2.ip0 ∧ e1.ip1 = e2.ip1 ∧ e1.ip2 = e2.ip2 ∧
        e1.ip3 = e2.ip3 ∧ e1.port = e2.port) := by
      cases e1; cases e2; simp
    simp only [← Bool.not_eq_true, EndPoint.lt_iff, hne]
    omega

/-- Witness for C1: `1.2.3.4:5 < 1.2.3.4:6 < 1.2.3.5:0`, and so `1.2.3.4:5 < 1.2.3.5:0`. -/
theorem EndPoint.lt_strict_total_order_witness :
    (EndPoint.mk 1 2 3 4 5).lt (EndPoint.mk 1 2 3 4 6) = true ∧
    (EndPoint.mk 1 2 3 4 6).lt (EndPoint.mk 1 2 3 5 0) = true ∧
    (EndPoint.mk 1 2 3 4 5).lt (EndPoint.mk 1 2 3 5 0) = true :=
  ⟨by decide, by decide,
   EndPoint.lt_strict_total_order.2.1 (EndPoint.mk 1 2 3 4 5) (EndPoint.mk 1 2 3 4 6)
     (EndPoint.mk 1 2 3 5 0) (by decide) (by decide)⟩

/-- Unfolding of the lexicographic order on lists of naturals at two non-empty lists. -/
theorem lex_cons_cons_iff (a b : Nat) (l1 l2 : List Nat) :
    List.Lex (fun x y : Nat => x < y) (a :: l1) (b :: l2) ↔
      a < b ∨ (a = b ∧ List.Lex (fun x y : Nat => x < y) l1 l2) := by
  constructor
  · intro h
    cases h with
    | cons h => exact Or.inr ⟨rfl, h⟩
    | rel h => exact Or.inl h
  · rintro (h | ⟨rfl, h⟩)
    · exact List.Lex.rel h
    · exact List.Lex.cons h

/-- C2. `EndPoint::operator<(e1, e2)` returns true exactly when the tuple
`(ip[0], ip[1], ip[2], ip[3], port)` of `e1` is strictly smaller than that of `e2` in
lexicographic order over the unsigned values. -/
theorem EndPoint.lt_iff_lexLess (e1 e2 : EndPoint) :
    e1.lt e2 = true ↔ EndPoint.LexLess e1 e2 := by
  rw [EndPoint.lt_iff]
  simp only [EndPoint.LexLess, EndPoint.toTuple, lex_cons_cons_iff,
    List.Lex.not_nil_right, and_false, or_false]

/-! ## Round trip through `sockaddr_in` -/

theorem and_0xFF (x : Nat) : x &&& 0xFF = x % 256 :=
  Nat.and_pow_two_sub_one_eq_mod x 8

/-- Or-ing a value below `2 ^ i` with a value shifted left by `i` adds them. -/
theorem lor_shiftLeft_eq_add {i b : Nat} (hb : b < 2 ^ i) (a : Nat) :
    b ||| (a <<< i) = b + a * 2 ^ i := by
  rw [Nat.lor_comm, Nat.shiftLeft_eq, Nat.mul_comm a, ← Nat.mul_add_lt_is_or hb]
  omega

/-- The packed address of a well-formed endpoint is the little-endian number with the
digits `ip[0]`, `ip[1]`, `ip[2]`, `ip[3]` in base 256. -/
theorem EndPoint.s_addr_ToSockAddrIn (le : Bool) (e : EndPoint) (h : e.WellFormed) :
    (e.ToSockAddrIn le).s_addr =
      e.ip0 + e.ip1 * 256 + e.ip2 * 65536 + e.ip3 * 16777216 := by
  obtain ⟨h0, h1, h2, h3, _⟩ := h
  have e1 : int32 (e.ip1 <<< 8) = e.ip1 <<< 8 := by
    rw [int32, Nat.shiftLeft_eq]; omega
  have e2 : int32 (e.ip2 <<< 16) = e.ip2 <<< 16 := by
    rw [int32, Nat.shiftLeft_eq]; omega
  have e3 : int32 (e.ip3 <<< 24) = e.ip3 <<< 24 := by
    rw [int32, Nat.shiftLeft_eq]; omega
  have s1 : e.ip0 ||| e.ip1 <<< 8 = e.ip0 + e.ip1 * 2 ^ 8 :=
    lor_shiftLeft_eq_add (by omega) _
  have s2 : (e.ip0 + e.ip1 * 2 ^ 8) ||| e.ip2 <<< 16 = e.ip0 + e.ip1 * 2 ^ 8 + e.ip2 * 2 ^ 16 :=
    lor_shiftLeft_eq_add (by omega) _
  have s3 : (e.ip0 + e.ip1 * 2 ^ 8 + e.ip2 * 2 ^ 16) ||| e.ip3 <<< 24 =
      e.ip0 + e.ip1 * 2 ^ 8 + e.ip2 * 2 ^ 16 + e.ip3 * 2 ^ 24 :=
    lor_shiftLeft_eq_add (by omega) _
  simp only [EndPoint.ToSockAddrIn, e1, e2, e3, s1, s2, s3, toUInt32]
  omega

theorem byteSwap16_byteSwap16 (p : Nat) (hp : p < 65536) :
    byteSwap16 (byteSwap16 p % 65536) = p := by
  have hhi : p / 256 < 256 := by omega
  have hlo : p % 256 < 256 := Nat.mod_lt _ (by decide)
  have hsw : byteSwap16 p = p % 256 * 256 + p / 256 := by
    simp only [byteSwap16, Nat.mod_eq_of_lt hhi]
  have hlt : byteSwap16 p < 65536 := by rw [hsw]; omega
  rw [Nat.mod_eq_of_lt hlt]
  have h1 : byteSwap16 p % 256 = p / 256 := by rw [hsw]; omega
  have h2 : byteSwap16 p / 256 = p % 256 := by rw [hsw]; omega
  unfold byteSwap16 at h1 h2 ⊢
  rw [h1, h2]
  omega

theorem ntohs_htons (le : Bool) (p : Nat) (hp : p < 65536) : ntohs le (htons le p) = p := by
  cases le
  · simp only [ntohs, htons, if_false, Bool.false_eq_true]
    omega
  · simp only [ntohs, htons, if_true, Nat.mod_eq_of_lt hp]
    exact byteSwap16_byteSwap16 p hp

/-- C3. For every endpoint `e` with four ip bytes in `0 .. 255` and a port in
`0 .. 65535`, `FromSockAddrIn(e.ToSockAddrIn())` is `e` again, on a host of either byte
order: the 32-bit packing `ip[0] | ip[1]<<8 | ip[2]<<16 | ip[3]<<24` loses no bits and
`ntohs` undoes `htons`. -/
theorem EndPoint.FromSockAddrIn_ToSockAddrIn (le : Bool) (e : EndPoint)
    (h : e.WellFormed) :
    EndPoint.FromSockAddrIn le (e.ToSockAddrIn le) = e ∧
    (e.ToSockAddrIn le).s_addr = e.ip0 + e.ip1 * 256 + e.ip2 * 65536 + e.ip3 * 16777216 ∧
    ntohs le (htons le e.port) = e.port := by
  have hs := EndPoint.s_addr_ToSockAddrIn le e h
  refine ⟨?_, hs, ntohs_htons le e.port h.2.2.2.2⟩
  have hport : (e.ToSockAddrIn le).sin_port = htons le e.port := rfl
  cases e with
  | mk a b c d p =>
    obtain ⟨h0, h1, h2, h3, hp⟩ := h
    simp only at h0 h1 h2 h3 hp hs hport
    simp only [EndPoint.FromSockAddrIn, hs, hport, and_0xFF, Nat.shiftRight_eq_div_pow,
      toUChar, ntohs_htons le p hp, EndPoint.mk.injEq, Nat.reducePow, and_true]
    refine ⟨?_, ?_, ?_, ?_⟩ <;> omega

/-- Witness for C3: the endpoint `192.168.1.200:8080` (an `ip[3]` above 127) on a
little-endian host. -/
theorem EndPoint.FromSockAddrIn_ToSockAddrIn_witness :
    (EndPoint.mk 192 168 1 200 8080).WellFormed ∧
    EndPoint.FromSockAddrIn true ((EndPoint.mk 192 168 1 200 8080).ToSockAddrIn true) =
      EndPoint.mk 192 168 1 200 8080 :=
  ⟨by decide,
   (EndPoint.FromSockAddrIn_ToSockAddrIn true (EndPoint.mk 192 168 1 200 8080) (by decide)).1⟩

/-! ## Text form of an endpoint -/

theorem toDigitsCore_append (fuel : Nat) : ∀ (n : Nat) (ds : List Char),
    Nat.toDigitsCore 10 fuel n ds = Nat.toDigitsCore 10 fuel n [] ++ ds := by
  induction fuel with
  | zero => intro n ds; simp [Nat.toDigitsCore]
  | succ f ih =>
    intro n ds
    simp only [Nat.toDigitsCore]
    split_ifs with h
    · simp
    · rw [ih (n / 10) (Nat.digitChar (n % 10) :: ds), ih (n / 10) [Nat.digitChar (n % 10)]]
      simp

theorem toDigitsCore_fuel (f1 : Nat) : ∀ (f2 n : Nat), n < f1 → n < f2 →
    Nat.toDigitsCore 10 f1 n [] = Nat.toDigitsCore 10 f2 n [] := by
  induction f1 with
  | zero => intro f2 n h1; omega
  | succ f ih =>
    intro f2 n h1 h2
    cases f2 with
    | zero => omega
    | succ g =>
      simp only [Nat.toDigitsCore]
      split_ifs with h
      · rfl
      · rw [toDigitsCore_append f, toDigitsCore_append g]
        rw [ih g (n / 10) (by omega) (by omega)]

theorem toDigits_rec (n : Nat) :
    Nat.toDigits 10 n =
      if n < 10 then [Nat.digitChar n] else Nat.toDigits 10 (n / 10) ++ [Nat.digitChar (n % 10)] := by
  have hstep : Nat.toDigits 10 n =
      if n / 10 = 0 then [Nat.digitChar (n % 10)]
      else Nat.toDigitsCore 10 n (n / 10) [Nat.digitChar (n % 10)] := rfl
  rw [hstep]
  by_cases h : n < 10
  · rw [if_pos h, if_pos (by omega), Nat.mod_eq_of_lt h]
  · rw [if_neg h, if_neg (by omega), toDigitsCore_append]
    unfold Nat.toDigits
    rw [toDigitsCore_fuel n (n / 10 + 1) (n / 10) (by omega) (by omega)]

theorem digitChar_props : ∀ d < 10, (Nat.digitChar d).isDigit = true ∧
    (Nat.digitChar d).toNat - 48 = d ∧ (Nat.digitChar d = '0' ↔ d = 0) := by
  decide

theorem decimalValue_append (s : List Char) (c : Char) :
    decimalValue (s ++ [c]) = 10 * decimalValue s + (c.toNat - 48) := by
  simp [decimalValue, List.foldl_append]

/-- The digits `Nat.toDigits 10 n` are `n` written in decimal without leading zeros. -/
theorem isDecimalOf_toDigits (n : Nat) : IsDecimalOf (Nat.toDigits 10 n) n := by
  induction n using Nat.strong_induction_on with
  | _ n ih =>
    rw [toDigits_rec]
    by_cases h : n < 10
    · rw [if_pos h]
      obtain ⟨hd, hv, hz⟩ := digitChar_props n h
      refine ⟨by simp, by simpa using hd, ?_, ?_⟩
      · intro _; simp_all
      · simpa [decimalValue] using hv
    · rw [if_neg h]
      obtain ⟨hne, hdig, hlead, hval⟩ := ih (n / 10) (by omega)
      obtain ⟨hd, hv, _⟩ := digitChar_props (n % 10) (Nat.mod_lt _ (by decide))
      refine ⟨by simp, ?_, ?_, ?_⟩
      · intro c hc
        rcases List.mem_append.1 hc with hc | hc
        · exact hdig c hc
        · rw [List.mem_singleton.1 hc]; exact hd
      · intro h0
        exfalso
        cases hs : Nat.toDigits 10 (n / 10) with
        | nil => exact hne hs
        | cons a t =>
          rw [hs] at h0 hlead hval
          simp only [List.cons_append, List.head?_cons, Option.some.injEq] at h0
          have := hlead (by simp [h0])
          rw [this] at hval
          have hv0 : decimalValue ['0'] = 0 := by decide
          omega
      · rw [decimalValue_append, hval, hv]
        omega

theorem toDigits_length_le (n k : Nat) (hk : 0 < k) (hn : n < 10 ^ k) :
    (Nat.toDigits 10 n).length ≤ k :=
  Nat.toDigitsCore_length 10 (by decide) (n + 1) n k hn hk

theorem toDigits_ne_nul (n : Nat) : ∀ c ∈ Nat.toDigits 10 n, c ≠ Char.ofNat 0 := by
  intro c hc hnul
  have hd := (isDecimalOf_toDigits n).2.1 c hc
  rw [hnul] at hd
  exact absurd hd (by decide)

theorem printfD_of_lt (n : Nat) (hn : n < 2 ^ 31) : printfD (toUInt32 n) = Nat.toDigits 10 n := by
  have h32 : n % 2 ^ 32 = n := Nat.mod_eq_of_lt (by omega)
  simp only [printfD, toUInt32, h32, if_pos hn]

/-- Reading back a NUL-terminated buffer whose text holds no NUL gives the text. -/
theorem stdString_terminated (out : List Char) (h : ∀ c ∈ out, c ≠ Char.ofNat 0) :
    stdString (out ++ [Char.ofNat 0]) = String.mk out := by
  unfold stdString
  congr 1
  induction out with
  | nil => simp [List.takeWhile]
  | cons a t ih =>
    have ha : a ≠ Char.ofNat 0 := h a (List.mem_cons_self _ _)
    have ht : ∀ c ∈ t, c ≠ Char.ofNat 0 := fun c hc => h c (List.mem_cons_of_mem _ hc)
    simp only [List.cons_append, List.takeWhile_cons, bne_iff_ne, ne_eq, ha, not_false_eq_true,
      if_true]
    rw [ih ht]

/-- C4. For every endpoint, `IPToString()` returns the four ip bytes written in decimal
without leading zeros and joined by `.`, and `ToString()` returns that same string followed
by `:` and the port written in decimal without leading zeros. -/
theorem EndPoint.IPToString_ToString_decimal (e : EndPoint) (h : e.WellFormed) :
    e.IPToString = some (String.mk ((Nat.repr e.ip0).data ++ '.' :: ((Nat.repr e.ip1).data ++
      '.' :: ((Nat.repr e.ip2).data ++ '.' :: (Nat.repr e.ip3).data)))) ∧
    e.ToString = some (String.mk ((Nat.repr e.ip0).data ++ '.' :: ((Nat.repr e.ip1).data ++
      '.' :: ((Nat.repr e.ip2).data ++ '.' :: ((Nat.repr e.ip3).data ++
        ':' :: (Nat.repr e.port).data))))) ∧
    e.ToString = e.IPToString.map (fun ip => ip ++ ":" ++ Nat.repr e.port) ∧
    IsDecimalOf (Nat.repr e.ip0).data e.ip0 ∧ IsDecimalOf (Nat.repr e.ip1).data e.ip1 ∧
    IsDecimalOf (Nat.repr e.ip2).data e.ip2 ∧ IsDecimalOf (Nat.repr e.ip3).data e.ip3 ∧
    IsDecimalOf (Nat.repr e.port).data e.port := by
  obtain ⟨h0, h1, h2, h3, hp⟩ := h
  have hrepr : ∀ n, (Nat.repr n).data = Nat.toDigits 10 n := fun _ => rfl
  have l0 := toDigits_length_le e.ip0 3 (by decide) (by omega)
  have l1 := toDigits_length_le e.ip1 3 (by decide) (by omega)
  have l2 := toDigits_length_le e.ip2 3 (by decide) (by omega)
  have l3 := toDigits_length_le e.ip3 3 (by decide) (by omega)
  have lp := toDigits_length_le e.port 5 (by decide) (by omega)
  have hdot : ('.' : Char) ≠ Char.ofNat 0 := by decide
  have hcol : (':' : Char) ≠ Char.ofNat 0 := by decide
  have hip : e.IPToString = some (String.mk (Nat.toDigits 10 e.ip0 ++ '.' ::
      (Nat.toDigits 10 e.ip1 ++ '.' :: (Nat.toDigits 10 e.ip2 ++ '.' ::
        Nat.toDigits 10 e.ip3)))) := by
    have hf : vformat "%d.%d.%d.%d".toList
        [toUInt32 e.ip0, toUInt32 e.ip1, toUInt32 e.ip2, toUInt32 e.ip3] =
        some (Nat.toDigits 10 e.ip0 ++ '.' :: (Nat.toDigits 10 e.ip1 ++ '.' ::
          (Nat.toDigits 10 e.ip2 ++ '.' :: Nat.toDigits 10 e.ip3))) := by
      simp [vformat, printfD_of_lt e.ip0 (by omega), printfD_of_lt e.ip1 (by omega),
        printfD_of_lt e.ip2 (by omega), printfD_of_lt e.ip3 (by omega)]
    unfold EndPoint.IPToString sprintf
    rw [hf]
    simp only []
    rw [if_pos (by simp only [List.length_append, List.length_cons]; omega)]
    simp only [Option.map_some']
    rw [stdString_terminated]
    intro c hc
    simp only [List.mem_append, List.mem_cons] at hc
    rcases hc with hc | rfl | hc | rfl | hc | rfl | hc
    · exact toDigits_ne_nul _ c hc
    · exact hdot
    · exact toDigits_ne_nul _ c hc
    · exact hdot
    · exact toDigits_ne_nul _ c hc
    · exact hdot
    · exact toDigits_ne_nul _ c hc
  have hto : e.ToString = some (String.mk (Nat.toDigits 10 e.ip0 ++ '.' ::
      (Nat.toDigits 10 e.ip1 ++ '.' :: (Nat.toDigits 10 e.ip2 ++ '.' ::
        (Nat.toDigits 10 e.ip3 ++ ':' :: Nat.toDigits 10 e.port))))) := by
    have hf : vformat "%d.%d.%d.%d:%d".toList
        [toUInt32 e.ip0, toUInt32 e.ip1, toUInt32 e.ip2, toUInt32 e.ip3, toUInt32 e.port] =
        some (Nat.toDigits 10 e.ip0 ++ '.' :: (Nat.toDigits 10 e.ip1 ++ '.' ::
          (Nat.toDigits 10 e.ip2 ++ '.' :: (Nat.toDigits 10 e.ip3 ++ ':' ::
            Nat.toDigits 10 e.port)))) := by
      simp [vformat, printfD_of_lt e.ip0 (by omega), printfD_of_lt e.ip1 (by omega),
        printfD_of_lt e.ip2 (by omega), printfD_of_lt e.ip3 (by omega),
        printfD_of_lt e.port (by omega)]
    unfold EndPoint.ToString sprintf
    rw [hf]
    simp only []
    rw [if_pos (by simp only [List.length_append, List.length_cons]; omega)]
    simp only [Option.map_some']
    rw [stdString_terminated]
    intro c hc
    simp only [List.mem_append, List.mem_cons] at hc
    rcases hc with hc | rfl | hc | rfl | hc | rfl | hc | rfl | hc
    · exact toDigits_ne_nul _ c hc
    · exact hdot
    · exact toDigits_ne_nul _ c hc
    · exact hdot
    · exact toDigits_ne_nul _ c hc
    · exact hdot
    · exact toDigits_ne_nul _ c hc
    · exact hcol
    · exact toDigits_ne_nul _ c hc
  refine ⟨by simpa only [hrepr] using hip, by simpa only [hrepr] using hto, ?_,
    isDecimalOf_toDigits _, isDecimalOf_toDigits _, isDecimalOf_toDigits _,
    isDecimalOf_toDigits _, isDecimalOf_toDigits _⟩
  rw [hip, hto]
  simp only [Option.map_some', Option.some.injEq]
  apply String.ext
  simp [hrepr]

/-- Witness for C4: the zero endpoint gives `0.0.0.0` and `0.0.0.0:0`. -/
theorem EndPoint.IPToString_ToString_decimal_witness :
    (EndPoint.mk 0 0 0 0 0).WellFormed ∧
    (EndPoint.mk 0 0 0 0 0).IPToString = some "0.0.0.0" ∧
    (EndPoint.mk 0 0 0 0 0).ToString = some "0.0.0.0:0" :=
  ⟨by decide,
   (EndPoint.IPToString_ToString_decimal (EndPoint.mk 0 0 0 0 0) (by decide)).1.trans
     (by decide),
   (EndPoint.IPToString_ToString_decimal (EndPoint.mk 0 0 0 0 0) (by decide)).2.1.trans
     (by decide)⟩

/-! ## The reference counter -/

theorem Call.eq_iff {α : Type} (c : Call α) (f : Option Fault) (a : α) :
    c = { fault := f, state := a } ↔ c.fault = f ∧ c.state = a := by
  cases c; simp

theorem RefCountable.AddRef_fault (r : RefCountable) :
    r.AddRef.fault =
      if r.refCount < 0 then some Fault.assertion
      else if r.refCount + 1 ≤ INT_MAX then none else some Fault.overflow := by
  unfold RefCountable.AddRef
  split_ifs <;> first | rfl | (exfalso; omega)

theorem RefCountable.AddRef_state (r : RefCountable) :
    r.AddRef.state = if r.AddRef.fault = none then { refCount := r.refCount + 1 } else r := by
  rw [RefCountable.AddRef_fault]
  unfold RefCountable.AddRef
  split_ifs <;> first | rfl | (exfalso; omega) | simp_all

theorem RefCountable.AddRef_refCount (r : RefCountable) :
    r.AddRef.state.refCount =
      if 0 ≤ r.refCount ∧ r.refCount + 1 ≤ INT_MAX then r.refCount + 1 else r.refCount := by
  unfold RefCountable.AddRef
  split_ifs <;> first | rfl | (exfalso; omega)

theorem RefCountable.DecRef_fault (r : RefCountable) :
    r.DecRef.fault = if r.refCount > 0 then none else some Fault.assertion := by
  unfold RefCountable.DecRef
  split_ifs <;> rfl

theorem RefCountable.DecRef_state (r : RefCountable) :
    r.DecRef.state = if r.refCount > 0 then { refCount := r.refCount - 1 } else r := by
  unfold RefCountable.DecRef
  split_ifs <;> rfl

theorem RefCountable.counter_run_nil (r : RefCountable) :
    RefCountable.run [] r = { fault := none, state := r } := rfl

theorem RefCountable.counter_run_cons_ok (op : RefOp) (ops : List RefOp) (r : RefCountable)
    (h : (RefCountable.call op r).fault = none) :
    RefCountable.run (op :: ops) r = RefCountable.run ops (RefCountable.call op r).state := by
  simp only [RefCountable.run, h]

theorem RefCountable.counter_run_cons_fault (op : RefOp) (ops : List RefOp) (r : RefCountable)
    (f : Fault) (h : (RefCountable.call op r).fault = some f) :
    RefCountable.run (op :: ops) r = RefCountable.call op r := by
  simp only [RefCountable.run, h]

theorem netCount_nil : netCount [] = 0 := by simp [netCount]

theorem netCount_cons_addRef (ops : List RefOp) :
    netCount (RefOp.addRef :: ops) = netCount ops + 1 := by
  simp [netCount]; omega

theorem netCount_cons_decRef (ops : List RefOp) :
    netCount (RefOp.decRef :: ops) = netCount ops - 1 := by
  simp [netCount]; omega

/-- A run in which every call returns moves the counter by the net count of the calls and
never leaves it negative. -/
theorem RefCountable.run_ok (ops : List RefOp) : ∀ (r : RefCountable),
    0 ≤ r.refCount → (RefCountable.run ops r).fault = none →
      (RefCountable.run ops r).state.refCount = r.refCount + netCount ops ∧
        0 ≤ (RefCountable.run ops r).state.refCount := by
  induction ops with
  | nil =>
    intro r h0 _
    simp [RefCountable.counter_run_nil, netCount_nil, h0]
  | cons op ops ih =>
    intro r h0 hrun
    rcases hf : (RefCountable.call op r).fault with _ | f
    · rw [RefCountable.counter_run_cons_ok op ops r hf] at hrun ⊢
      cases op with
      | addRef =>
        simp only [RefCountable.call] at hf hrun ⊢
        have hs := RefCountable.AddRef_state r
        rw [if_pos hf] at hs
        rw [hs] at hrun ⊢
        have := ih _ (by simp only; omega) hrun
        rw [netCount_cons_addRef]
        simp only at this
        omega
      | decRef =>
        simp only [RefCountable.call] at hf hrun ⊢
        have hpos : r.refCount > 0 := by
          by_contra hn
          rw [RefCountable.DecRef_fault, if_neg hn] at hf
          exact absurd hf (by simp)
        have hs := RefCountable.DecRef_state r
        rw [if_pos hpos] at hs
        rw [hs] at hrun ⊢
        have := ih _ (by simp only; omega) hrun
        rw [netCount_cons_decRef]
        simp only at this
        omega
    · rw [RefCountable.counter_run_cons_fault op ops r f hf] at hrun
      rw [hf] at hrun
      exact absurd hrun (by simp)

theorem RefCountable.counter_run_append (l1 l2 : List RefOp) : ∀ r : RefCountable,
    RefCountable.run (l1 ++ l2) r =
      if (RefCountable.run l1 r).fault = none then
        RefCountable.run l2 (RefCountable.run l1 r).state
      else RefCountable.run l1 r := by
  induction l1 with
  | nil => intro r; simp [RefCountable.counter_run_nil]
  | cons op ops ih =>
    intro r
    rcases hf : (RefCountable.call op r).fault with _ | f
    · rw [List.cons_append, RefCountable.counter_run_cons_ok _ _ _ hf, RefCountable.counter_run_cons_ok _ _ _ hf,
        ih]
    · rw [List.cons_append, RefCountable.counter_run_cons_fault _ _ _ f hf,
        RefCountable.counter_run_cons_fault _ _ _ f hf, if_neg (by rw [hf]; simp)]

/-- Whatever the calls, and whether or not they all return, a counter that starts
non-negative is never left negative. -/
theorem RefCountable.run_nonneg (ops : List RefOp) : ∀ r : RefCountable,
    0 ≤ r.refCount → 0 ≤ (RefCountable.run ops r).state.refCount := by
  induction ops with
  | nil => intro r h0; simpa [RefCountable.counter_run_nil] using h0
  | cons op ops ih =>
    intro r h0
    have hstate : 0 ≤ (RefCountable.call op r).state.refCount := by
      cases op with
      | addRef =>
        simp only [RefCountable.call]
        rw [RefCountable.AddRef_state]
        split_ifs
        · show 0 ≤ r.refCount + 1
          omega
        · exact h0
      | decRef =>
        simp only [RefCountable.call]
        rw [RefCountable.DecRef_state]
        split_ifs
        · show 0 ≤ r.refCount - 1
          omega
        · exact h0
    rcases hf : (RefCountable.call op r).fault with _ | f
    · rw [RefCountable.counter_run_cons_ok _ _ _ hf]
      exact ih _ hstate
    · rw [RefCountable.counter_run_cons_fault _ _ _ f hf]
      exact hstate

/-- A run of at most `INT_MAX` calls, counted with the count at its start, never leaves the
range of `int`. -/
theorem RefCountable.run_no_overflow (ops : List RefOp) : ∀ r : RefCountable,
    0 ≤ r.refCount → r.refCount + (ops.length : Int) ≤ INT_MAX →
    (RefCountable.run ops r).fault ≠ some Fault.overflow := by
  induction ops with
  | nil => intro r _ _; simp [RefCountable.counter_run_nil]
  | cons op rest ih =>
    intro r h0 hb
    simp only [List.length_cons] at hb
    push_cast at hb
    cases op with
    | addRef =>
      have hf : (RefCountable.call RefOp.addRef r).fault = none := by
        simp only [RefCountable.call]
        rw [RefCountable.AddRef_fault, if_neg (by omega), if_pos (by omega)]
      have hs : (RefCountable.call RefOp.addRef r).state = { refCount := r.refCount + 1 } := by
        simp only [RefCountable.call] at hf ⊢
        rw [RefCountable.AddRef_state, if_pos hf]
      rw [RefCountable.counter_run_cons_ok _ _ _ hf, hs]
      exact ih { refCount := r.refCount + 1 } (show 0 ≤ r.refCount + 1 by omega)
        (show r.refCount + 1 + (rest.length : Int) ≤ INT_MAX by omega)
    | decRef =>
      by_cases hpos : r.refCount > 0
      · have hf : (RefCountable.call RefOp.decRef r).fault = none := by
          simp only [RefCountable.call]
          rw [RefCountable.DecRef_fault, if_pos hpos]
        have hs : (RefCountable.call RefOp.decRef r).state = { refCount := r.refCount - 1 } := by
          simp only [RefCountable.call]
          rw [RefCountable.DecRef_state, if_pos hpos]
        rw [RefCountable.counter_run_cons_ok _ _ _ hf, hs]
        exact ih { refCount := r.refCount - 1 } (show 0 ≤ r.refCount - 1 by omega)
          (show r.refCount - 1 + (rest.length : Int) ≤ INT_MAX by omega)
      · have hf : (RefCountable.call RefOp.decRef r).fault = some Fault.assertion := by
          simp only [RefCountable.call]
          rw [RefCountable.DecRef_fault, if_neg hpos]
        rw [RefCountable.counter_run_cons_fault _ _ _ _ hf, hf]
        simp

/-- C8. The reference counter is never negative while the object is live: a fresh object
has `RefCount() == 0`; after any sequence of `AddRef`/`DecRef` calls that all return,
`RefCount()` is the number of `AddRef` calls minus the number of `DecRef` calls and is not
negative; a sequence of at most `INT_MAX` calls whose assertions all pass does return; the
count is not negative after any sequence at all; and an `AddRef` immediately followed by a
`DecRef` restores the object. -/
theorem RefCountable.refCount_eq_netCount :
    RefCountable.new.RefCount = 0 ∧
    (∀ ops : List RefOp, (RefCountable.run ops RefCountable.new).fault = none →
      (RefCountable.run ops RefCountable.new).state.RefCount = netCount ops ∧
      0 ≤ (RefCountable.run ops RefCountable.new).state.RefCount) ∧
    (∀ ops : List RefOp, (ops.length : Int) ≤ INT_MAX →
      (RefCountable.run ops RefCountable.new).fault ≠ some Fault.assertion →
      (RefCountable.run ops RefCountable.new).fault = none ∧
      (RefCountable.run ops RefCountable.new).state.RefCount = netCount ops) ∧
    (∀ ops : List RefOp, 0 ≤ (RefCountable.run ops RefCountable.new).state.RefCount) ∧
    (∀ r : RefCountable, r.AddRef.fault = none →
      RefCountable.run [RefOp.addRef, RefOp.decRef] r = { fault := none, state := r }) := by
  have hnet : ∀ ops : List RefOp, (RefCountable.run ops RefCountable.new).fault = none →
      (RefCountable.run ops RefCountable.new).state.RefCount = netCount ops ∧
      0 ≤ (RefCountable.run ops RefCountable.new).state.RefCount := by
    intro ops hok
    have := RefCountable.run_ok ops RefCountable.new (by decide) hok
    simp only [RefCountable.RefCount]
    refine ⟨?_, this.2⟩
    rw [this.1]
    simp [RefCountable.new]
  refine ⟨rfl, hnet, ?_, ?_, ?_⟩
  · intro ops hlen hassert
    have hov := RefCountable.run_no_overflow ops RefCountable.new (by decide)
      (by simp only [RefCountable.new]; omega)
    have hok : (RefCountable.run ops RefCountable.new).fault = none := by
      rcases hf : (RefCountable.run ops RefCountable.new).fault with _ | f
      · rfl
      · cases f with
        | assertion => exact absurd hf hassert
        | overflow => exact absurd hf hov
    exact ⟨hok, (hnet ops hok).1⟩
  · intro ops
    exact RefCountable.run_nonneg ops RefCountable.new (by decide)
  · intro r hok
    have hs := RefCountable.AddRef_state r
    rw [if_pos hok] at hs
    have hr : 0 ≤ r.refCount := by
      by_contra hn
      rw [RefCountable.AddRef_fault, if_pos (by omega)] at hok
      exact absurd hok (by simp)
    have hcall : RefCountable.call RefOp.addRef r = r.AddRef := rfl
    rw [RefCountable.counter_run_cons_ok _ _ _ (by rw [hcall]; exact hok), hcall, hs]
    have hd : (RefCountable.call RefOp.decRef { refCount := r.refCount + 1 }).fault = none := by
      simp only [RefCountable.call]
      rw [RefCountable.DecRef_fault, if_pos (by simp only; omega)]
    rw [RefCountable.counter_run_cons_ok _ _ _ hd, RefCountable.counter_run_nil]
    simp only [RefCountable.call]
    rw [RefCountable.DecRef_state, if_pos (by simp only; omega)]
    cases r
    simp

/-- Witness for C8: two `AddRef` calls and one `DecRef` on a fresh object all return and
leave the count 1; an `AddRef` then a `DecRef` on a fresh object restore it. -/
theorem RefCountable.refCount_eq_netCount_witness :
    (RefCountable.run [RefOp.addRef, RefOp.addRef, RefOp.decRef] RefCountable.new).fault = none ∧
    (RefCountable.run [RefOp.addRef, RefOp.addRef, RefOp.decRef]
      RefCountable.new).state.RefCount = 1 ∧
    (([RefOp.addRef, RefOp.addRef, RefOp.decRef].length : Nat) : Int) ≤ INT_MAX ∧
    (RefCountable.run [RefOp.addRef, RefOp.addRef, RefOp.decRef] RefCountable.new).fault ≠
      some Fault.assertion ∧
    RefCountable.new.AddRef.fault = none ∧
    RefCountable.run [RefOp.addRef, RefOp.decRef] RefCountable.new =
      { fault := none, state := RefCountable.new } :=
  ⟨by decide,
   ((RefCountable.refCount_eq_netCount.2.1 [RefOp.addRef, RefOp.addRef, RefOp.decRef]
      (by decide)).1).trans (by decide),
   by decide, by decide, by decide,
   RefCountable.refCount_eq_netCount.2.2.2.2 RefCountable.new (by decide)⟩

/-- C6. `RefCountable` rejects contract violations by assertion: `DecRef` fails its
assertion when the count is 0, so a count that is not negative is never taken below zero;
after the destructor has run the count is -100000 and both `AddRef` and `DecRef` fail their
assertions; a rejected call leaves the count unchanged; and the assertion of `AddRef` passes
exactly when the count is `>= 0`, that of `DecRef` exactly when it is `> 0` (`DecRef` then
returns, and `AddRef` returns unless the count is `INT_MAX`). -/
theorem RefCountable.assertions :
    (∀ r : RefCountable, r.refCount = 0 →
      r.DecRef = { fault := some Fault.assertion, state := r }) ∧
    (∀ r : RefCountable, 0 ≤ r.refCount → 0 ≤ r.DecRef.state.refCount) ∧
    (∀ r : RefCountable, r.destroy.RefCount = -100000 ∧
      r.destroy.AddRef = { fault := some Fault.assertion, state := r.destroy } ∧
      r.destroy.DecRef = { fault := some Fault.assertion, state := r.destroy }) ∧
    (∀ r : RefCountable, (r.AddRef.fault = some Fault.assertion → r.AddRef.state = r) ∧
      (r.DecRef.fault = some Fault.assertion → r.DecRef.state = r)) ∧
    (∀ r : RefCountable, (r.AddRef.fault ≠ some Fault.assertion ↔ r.refCount ≥ 0) ∧
      (r.AddRef.fault = none ↔ r.refCount ≥ 0 ∧ r.refCount < INT_MAX) ∧
      (r.DecRef.fault ≠ some Fault.assertion ↔ r.refCount > 0) ∧
      (r.DecRef.fault = none ↔ r.refCount > 0)) := by
  refine ⟨?_, ?_, ?_, ?_, ?_⟩
  · intro r h0
    rw [Call.eq_iff, RefCountable.DecRef_fault, RefCountable.DecRef_state,
      if_neg (by omega), if_neg (by omega)]
    exact ⟨rfl, rfl⟩
  · intro r h0
    rw [RefCountable.DecRef_state]
    split_ifs
    · show 0 ≤ r.refCount - 1
      omega
    · exact h0
  · intro r
    exact ⟨rfl, rfl, rfl⟩
  · intro r
    constructor
    · intro h
      rw [RefCountable.AddRef_state, h]
      simp
    · intro h
      rw [RefCountable.DecRef_fault] at h
      rw [RefCountable.DecRef_state]
      by_cases hp : r.refCount > 0
      · rw [if_pos hp] at h
        exact absurd h (by simp)
      · rw [if_neg hp]
  · intro r
    rw [RefCountable.AddRef_fault, RefCountable.DecRef_fault]
    refine ⟨?_, ?_, ?_, ?_⟩
    · split_ifs <;> simp <;> omega
    · split_ifs <;> simp <;> omega
    · split_ifs <;> simp <;> omega
    · split_ifs <;> simp <;> omega

/-- Witness for C6: `DecRef` on a fresh object (count 0) is rejected and leaves the count
0, and `AddRef` on a counter holding 5 passes its assertion. -/
theorem RefCountable.assertions_witness :
    RefCountable.new.refCount = 0 ∧
    RefCountable.new.DecRef = { fault := some Fault.assertion, state := RefCountable.new } ∧
    (RefCountable.mk 5).AddRef.fault ≠ some Fault.assertion :=
  ⟨rfl, RefCountable.assertions.1 RefCountable.new rfl,
   (RefCountable.assertions.2.2.2.2 (RefCountable.mk 5)).1.2 (by decide)⟩

/-! ## Destruction of the referent -/

theorem netHandleCount_nil : netHandleCount [] = 0 := by simp [netHandleCount]

theorem netHandleCount_cons_addRef (ops : List HandleCall) :
    netHandleCount (HandleCall.addRef :: ops) = netHandleCount ops + 1 := by
  simp [netHandleCount]; omega

theorem netHandleCount_cons_release (ops : List HandleCall) :
    netHandleCount (HandleCall.release :: ops) = netHandleCount ops - 1 := by
  simp [netHandleCount]; omega

theorem Referent.addRef_fault (o : Referent) : o.addRef.fault = o.counter.AddRef.fault := rfl

theorem Referent.addRef_state (o : Referent) :
    o.addRef.state = { counter := o.counter.AddRef.state, destroyed := o.destroyed } := rfl

/-- What `Release` does to the referent, by the count it finds. -/
theorem Referent.release_eq (o : Referent) :
    o.release =
      if o.counter.refCount ≤ 0 then { fault := some Fault.assertion, state := o }
      else if o.counter.refCount = 1 then
        { fault := none, state := { counter := { refCount := -100000 },
                                    destroyed := o.destroyed + 1 } }
      else { fault := none, state := { counter := { refCount := o.counter.refCount - 1 },
                                       destroyed := o.destroyed } } := by
  unfold Referent.release
  rw [RefCountable.DecRef_fault, RefCountable.DecRef_state]
  by_cases h0 : o.counter.refCount > 0
  · have hn : ¬ o.counter.refCount ≤ 0 := by omega
    simp only [if_pos h0, if_neg hn, RefCountable.RefCount]
    by_cases h1 : o.counter.refCount = 1
    · have hz : o.counter.refCount - 1 = 0 := by omega
      simp only [if_pos h1, hz, if_true]
      rfl
    · have hz : ¬ o.counter.refCount - 1 = 0 := by omega
      simp only [if_neg h1, if_neg hz]
  · have hn : o.counter.refCount ≤ 0 := by omega
    simp only [if_neg h0, if_pos hn]

theorem Referent.referent_run_nil (o : Referent) :
    Referent.run [] o = { fault := none, state := o } := rfl

theorem Referent.referent_run_cons_ok (op : HandleCall) (ops : List HandleCall) (o : Referent)
    (h : (Referent.call op o).fault = none) :
    Referent.run (op :: ops) o = Referent.run ops (Referent.call op o).state := by
  simp only [Referent.run, h]

theorem Referent.referent_run_cons_fault (op : HandleCall) (ops : List HandleCall) (o : Referent)
    (f : Fault) (h : (Referent.call op o).fault = some f) :
    Referent.run (op :: ops) o = Referent.call op o := by
  simp only [Referent.run, h]

theorem Referent.referent_run_append (l1 l2 : List HandleCall) : ∀ o : Referent,
    Referent.run (l1 ++ l2) o =
      if (Referent.run l1 o).fault = none then Referent.run l2 (Referent.run l1 o).state
      else Referent.run l1 o := by
  induction l1 with
  | nil => intro o; simp [Referent.referent_run_nil]
  | cons op ops ih =>
    intro o
    rcases hf : (Referent.call op o).fault with _ | f
    · rw [List.cons_append, Referent.referent_run_cons_ok _ _ _ hf, Referent.referent_run_cons_ok _ _ _ hf, ih]
    · rw [List.cons_append, Referent.referent_run_cons_fault _ _ _ f hf,
        Referent.referent_run_cons_fault _ _ _ f hf, if_neg (by rw [hf]; simp)]

/-- A call on a referent whose counter is negative (a destroyed one) is rejected. -/
theorem Referent.call_fault_of_neg (op : HandleCall) (o : Referent) (h : o.counter.refCount < 0) :
    (Referent.call op o).fault = some Fault.assertion := by
  cases op with
  | addRef =>
    simp only [Referent.call, Referent.addRef_fault]
    rw [RefCountable.AddRef_fault, if_pos h]
  | release =>
    simp only [Referent.call]
    rw [Referent.release_eq, if_pos (by omega)]

theorem netHandleCount_append_addRef (ops : List HandleCall) :
    netHandleCount (ops ++ [HandleCall.addRef]) = netHandleCount ops + 1 := by
  simp [netHandleCount, List.count_append]; omega

theorem netHandleCount_append_release (ops : List HandleCall) :
    netHandleCount (ops ++ [HandleCall.release]) = netHandleCount ops - 1 := by
  simp [netHandleCount, List.count_append]; omega

theorem Referent.run_inv (ops : List HandleCall) :
    (Referent.run ops Referent.new).fault = none →
      Referent.RunInv ops (Referent.run ops Referent.new).state := by
  induction ops using List.reverseRecOn with
  | nil =>
    intro _
    left
    exact ⟨rfl, by simp [Referent.referent_run_nil, Referent.new, RefCountable.new, netHandleCount_nil],
      fun h => absurd rfl h⟩
  | append_singleton pre op ih =>
    intro hok
    rw [Referent.referent_run_append] at hok ⊢
    by_cases hpre : (Referent.run pre Referent.new).fault = none
    · rw [if_pos hpre] at hok ⊢
      have hinv := ih hpre
      rcases hrun : Referent.run pre Referent.new with ⟨f, o⟩
      rw [hrun] at hok hpre hinv
      simp only at hok hpre hinv ⊢
      rcases hcf : (Referent.call op o).fault with _ | g
      · rw [Referent.referent_run_cons_ok _ _ _ hcf, Referent.referent_run_nil]
        simp only
        rcases hinv with ⟨hd, hc, hpos⟩ | ⟨_, hc, _⟩
        · cases op with
          | addRef =>
            simp only [Referent.call, Referent.addRef_fault] at hcf
            have hs := RefCountable.AddRef_state o.counter
            rw [if_pos hcf] at hs
            rw [RefCountable.AddRef_fault] at hcf
            have h0 : ¬ o.counter.refCount < 0 := by
              intro hn; rw [if_pos hn] at hcf; exact absurd hcf (by simp)
            left
            simp only [Referent.call, Referent.addRef_state, hs]
            refine ⟨hd, ?_, fun _ => ?_⟩
            · rw [netHandleCount_append_addRef]; omega
            · omega
          | release =>
            simp only [Referent.call] at hcf ⊢
            rw [Referent.release_eq] at hcf ⊢
            by_cases h0 : o.counter.refCount ≤ 0
            · rw [if_pos h0] at hcf
              exact absurd hcf (by simp)
            · rw [if_neg h0]
              by_cases h1 : o.counter.refCount = 1
              · rw [if_pos h1]
                right
                refine ⟨by simp only; omega, rfl, ?_, pre, rfl, ?_⟩
                · rw [netHandleCount_append_release]; omega
                · rw [hrun]
                  exact ⟨hpre, hd, h1⟩
              · rw [if_neg h1]
                left
                refine ⟨hd, ?_, fun _ => ?_⟩
                · rw [netHandleCount_append_release]; simp only; omega
                · simp only; omega
        · have := Referent.call_fault_of_neg op o (by omega)
          rw [this] at hcf
          exact absurd hcf (by simp)
      · rw [Referent.referent_run_cons_fault _ _ _ g hcf, hcf] at hok
        exact absurd hok (by simp)
    · rw [if_neg hpre] at hok
      exact absurd hok hpre

/-- Which calls destroy the referent: the `DecRef` of `Release` that finds the count 1, and
no other call. -/
theorem Referent.call_destroyed (op : HandleCall) (o : Referent) :
    (Referent.call op o).state.destroyed =
      if op = HandleCall.release ∧ o.counter.refCount = 1 then o.destroyed + 1 else o.destroyed := by
  cases op with
  | addRef => simp [Referent.call, Referent.addRef_state]
  | release =>
    simp only [Referent.call, true_and]
    rw [Referent.release_eq]
    by_cases h0 : o.counter.refCount ≤ 0
    · rw [if_pos h0, if_neg (by omega)]
    · rw [if_neg h0]
      by_cases h1 : o.counter.refCount = 1
      · rw [if_pos h1, if_pos h1]
      · rw [if_neg h1, if_neg h1]

/-- A referent is either not destroyed, with a count that is not negative, or destroyed
once, with the poisoned count; every call keeps it so. -/
theorem Referent.call_once (op : HandleCall) (o : Referent)
    (h : (o.destroyed = 0 ∧ 0 ≤ o.counter.refCount) ∨
      (o.destroyed = 1 ∧ o.counter.refCount = -100000)) :
    ((Referent.call op o).state.destroyed = 0 ∧ 0 ≤ (Referent.call op o).state.counter.refCount) ∨
      ((Referent.call op o).state.destroyed = 1 ∧
        (Referent.call op o).state.counter.refCount = -100000) := by
  cases op with
  | addRef =>
    simp only [Referent.call, Referent.addRef_state]
    rw [RefCountable.AddRef_refCount]
    rcases h with ⟨hd, hc⟩ | ⟨hd, hc⟩
    · left
      refine ⟨hd, ?_⟩
      split_ifs <;> omega
    · right
      refine ⟨hd, ?_⟩
      rw [if_neg (by omega)]
      exact hc
  | release =>
    simp only [Referent.call]
    rw [Referent.release_eq]
    rcases h with ⟨hd, hc⟩ | ⟨hd, hc⟩
    · by_cases h0 : o.counter.refCount ≤ 0
      · rw [if_pos h0]; left; exact ⟨hd, hc⟩
      · rw [if_neg h0]
        by_cases h1 : o.counter.refCount = 1
        · rw [if_pos h1]; right; exact ⟨by simp only; omega, rfl⟩
        · rw [if_neg h1]; left
          refine ⟨hd, ?_⟩
          show 0 ≤ o.counter.refCount - 1
          omega
    · rw [if_pos (by omega)]; right; exact ⟨hd, hc⟩

theorem Referent.run_once (ops : List HandleCall) : ∀ o : Referent,
    ((o.destroyed = 0 ∧ 0 ≤ o.counter.refCount) ∨
      (o.destroyed = 1 ∧ o.counter.refCount = -100000)) →
    (Referent.run ops o).state.destroyed ≤ 1 := by
  induction ops with
  | nil =>
    intro o h
    rw [Referent.referent_run_nil]
    rcases h with ⟨hd, _⟩ | ⟨hd, _⟩ <;> simp only <;> omega
  | cons op ops ih =>
    intro o h
    have hc := Referent.call_once op o h
    rcases hf : (Referent.call op o).fault with _ | f
    · rw [Referent.referent_run_cons_ok _ _ _ hf]
      exact ih _ hc
    · rw [Referent.referent_run_cons_fault _ _ _ f hf]
      rcases hc with ⟨hd, _⟩ | ⟨hd, _⟩ <;> omega

/-- While calls are still to come in a run that returns, the referent has not been
destroyed. -/
theorem Referent.run_prefix_alive (pre suf : List HandleCall) (hsuf : suf ≠ [])
    (hok : (Referent.run (pre ++ suf) Referent.new).fault = none) :
    (Referent.run pre Referent.new).fault = none ∧
      (Referent.run pre Referent.new).state.destroyed = 0 := by
  rw [Referent.referent_run_append] at hok
  by_cases hpre : (Referent.run pre Referent.new).fault = none
  · rw [if_pos hpre] at hok
    refine ⟨hpre, ?_⟩
    rcases Referent.run_inv pre hpre with ⟨hd, _, _⟩ | ⟨_, hc, _⟩
    · exact hd
    · exfalso
      cases suf with
      | nil => exact hsuf rfl
      | cons op rest =>
        have hf := Referent.call_fault_of_neg op (Referent.run pre Referent.new).state
          (by omega)
        rw [Referent.referent_run_cons_fault _ _ _ _ hf, hf] at hok
        exact absurd hok (by simp)
  · rw [if_neg hpre] at hok
    exact absurd hok hpre

/-- A run on a referent whose counter is negative (a destroyed one) leaves it as it is. -/
theorem Referent.run_of_neg (ops : List HandleCall) (o : Referent) (h : o.counter.refCount < 0) :
    (Referent.run ops o).state = o := by
  cases ops with
  | nil => rfl
  | cons op rest =>
    rw [Referent.referent_run_cons_fault _ _ _ _ (Referent.call_fault_of_neg op o h)]
    cases op with
    | addRef =>
      simp only [Referent.call, Referent.addRef_state]
      rw [RefCountable.AddRef_state, RefCountable.AddRef_fault, if_pos h]
      simp
    | release =>
      simp only [Referent.call]
      rw [Referent.release_eq, if_pos (by omega)]

/-- A live referent that a run has not destroyed ends with a count of at least 1, when the
count cannot leave the range of `int`. -/
theorem Referent.count_pos_of_not_destroyed (ops : List HandleCall) : ∀ o : Referent,
    o.destroyed = 0 → 1 ≤ o.counter.refCount →
    o.counter.refCount + (ops.length : Int) ≤ INT_MAX →
    (Referent.run ops o).state.destroyed = 0 → 1 ≤ o.counter.refCount + netHandleCount ops := by
  induction ops with
  | nil =>
    intro o _ h1 _ _
    rw [netHandleCount_nil]
    omega
  | cons op rest ih =>
    intro o hd h1 hb hfin
    simp only [List.length_cons] at hb
    push_cast at hb
    cases op with
    | addRef =>
      have hf : (Referent.call HandleCall.addRef o).fault = none := by
        simp only [Referent.call, Referent.addRef_fault]
        rw [RefCountable.AddRef_fault, if_neg (by omega), if_pos (by omega)]
      have hs : (Referent.call HandleCall.addRef o).state =
          { counter := { refCount := o.counter.refCount + 1 }, destroyed := o.destroyed } := by
        simp only [Referent.call, Referent.addRef_fault] at hf
        simp only [Referent.call, Referent.addRef_state]
        rw [RefCountable.AddRef_state, if_pos hf]
      rw [Referent.referent_run_cons_ok _ _ _ hf, hs] at hfin
      have := ih { counter := { refCount := o.counter.refCount + 1 }, destroyed := o.destroyed }
        hd (show 1 ≤ o.counter.refCount + 1 by omega)
        (show o.counter.refCount + 1 + (rest.length : Int) ≤ INT_MAX by omega) hfin
      rw [netHandleCount_cons_addRef]
      simp only at this
      omega
    | release =>
      have hrel := Referent.release_eq o
      rw [if_neg (by omega)] at hrel
      by_cases hone : o.counter.refCount = 1
      · exfalso
        rw [if_pos hone] at hrel
        have hf : (Referent.call HandleCall.release o).fault = none := by
          simp only [Referent.call, hrel]
        rw [Referent.referent_run_cons_ok _ _ _ hf] at hfin
        simp only [Referent.call, hrel] at hfin
        rw [Referent.run_of_neg rest _ (show (-100000 : Int) < 0 by decide)] at hfin
        simp only at hfin
        omega
      · rw [if_neg hone] at hrel
        have hf : (Referent.call HandleCall.release o).fault = none := by
          simp only [Referent.call, hrel]
        rw [Referent.referent_run_cons_ok _ _ _ hf] at hfin
        simp only [Referent.call, hrel] at hfin
        have := ih { counter := { refCount := o.counter.refCount - 1 }, destroyed := o.destroyed }
          hd (show 1 ≤ o.counter.refCount - 1 by omega)
          (show o.counter.refCount - 1 + (rest.length : Int) ≤ INT_MAX by omega) hfin
        rw [netHandleCount_cons_release]
        simp only at this
        omega

/-- A run of handle operations that does not begin with `AddRef` (the empty run, or one
whose first operation is a `Release` on the fresh object, which the assertion of `DecRef`
stops) never destroys the object. -/
theorem Referent.run_not_destroyed_of_head (ops : List HandleCall)
    (h : ops.head? ≠ some HandleCall.addRef) :
    (Referent.run ops Referent.new).state.destroyed = 0 := by
  cases ops with
  | nil => rfl
  | cons op rest =>
    cases op with
    | addRef => simp at h
    | release =>
      have hf : (Referent.call HandleCall.release Referent.new).fault = some Fault.assertion := by
        decide
      rw [Referent.referent_run_cons_fault _ _ _ _ hf]
      decide

/-- C5, as stated, fails on `RefCountable::AddRef` and `RefCountable::DecRef`: the calls
`AddRef`, `DecRef` on a fresh object both return and net to zero, and they leave the object
as the constructor made it, with count 0 and not with the mark -100000 of the destructor;
it is alive, since a further `AddRef` returns, which on a destroyed object stops at the
assertion.  The empty sequence nets to zero as well and leaves the fresh object untouched.
So it is not so that every net-zero sequence of `AddRef`/`DecRef` calls destroys the
object. -/
theorem RefCountable.addRef_decRef_counterexample :
    netCount [RefOp.addRef, RefOp.decRef] = 0 ∧
    (RefCountable.run [RefOp.addRef, RefOp.decRef] RefCountable.new).fault = none ∧
    (RefCountable.run [RefOp.addRef, RefOp.decRef] RefCountable.new).state = RefCountable.new ∧
    (RefCountable.run [RefOp.addRef, RefOp.decRef] RefCountable.new).state.RefCount = 0 ∧
    (RefCountable.run [RefOp.addRef, RefOp.decRef] RefCountable.new).state ≠
      RefCountable.new.destroy ∧
    (RefCountable.run [RefOp.addRef, RefOp.decRef, RefOp.addRef] RefCountable.new).fault = none ∧
    (RefCountable.run [RefOp.addRef, RefOp.decRef, RefOp.addRef]
      RefCountable.new).state.RefCount = 1 ∧
    RefCountable.new.destroy.AddRef.fault = some Fault.assertion ∧
    netCount [] = 0 ∧
    (RefCountable.run [] RefCountable.new).state = RefCountable.new ∧
    ¬ (∀ ops : List RefOp, netCount ops = 0 →
        (RefCountable.run ops RefCountable.new).state = RefCountable.new.destroy) := by
  refine ⟨by decide, by decide, by decide, by decide, by decide, by decide, by decide,
    by decide, by decide, by decide, ?_⟩
  intro h
  exact absurd (h [RefOp.addRef, RefOp.decRef] (by decide)) (by decide)

/-- C5, amended.  `RefCountable::AddRef` and `RefCountable::DecRef` only count: no sequence
of them on a fresh object leaves it with the mark of the destructor.  The object is
destroyed by `SharedPtr<T>::Release()`, which calls `DecRef` and then deletes the object
when the count is 0.  An operation of a handle destroys the referent exactly when it is the
`Release` that finds the count 1; whatever the operations, the referent is never destroyed
twice; for every non-empty sequence of `AddRef`/`Release` operations on a fresh object
(count 0) that all return and net to zero, the object is destroyed exactly once: by the last
operation, a `Release` that finds the count 1, and not while operations were still to come;
for every sequence that begins with an `AddRef` and nets to zero, the object is destroyed
exactly once also when operations made after the destruction are rejected; and a sequence
that does not begin with an `AddRef` (the empty one, or one that begins with a rejected
`Release`) never destroys the object, whatever its net count. -/
theorem Referent.release_destroys_exactly_once :
    (∀ (ops : List RefOp) (r : RefCountable),
      (RefCountable.run ops RefCountable.new).state ≠ r.destroy) ∧
    (∀ (op : HandleCall) (o : Referent), (Referent.call op o).state.destroyed =
      if op = HandleCall.release ∧ o.counter.RefCount = 1 then o.destroyed + 1 else o.destroyed) ∧
    (∀ ops : List HandleCall, (Referent.run ops Referent.new).state.destroyed ≤ 1) ∧
    (∀ ops : List HandleCall, ops ≠ [] → netHandleCount ops = 0 →
      (Referent.run ops Referent.new).fault = none →
        (Referent.run ops Referent.new).state.destroyed = 1 ∧
        (∃ pre, ops = pre ++ [HandleCall.release] ∧
          (Referent.run pre Referent.new).state.counter.RefCount = 1) ∧
        (∀ pre suf, ops = pre ++ suf → suf ≠ [] →
          (Referent.run pre Referent.new).fault = none ∧
          (Referent.run pre Referent.new).state.destroyed = 0)) ∧
    (∀ ops : List HandleCall, ops.head? = some HandleCall.addRef → netHandleCount ops = 0 →
      (ops.length : Int) ≤ INT_MAX → (Referent.run ops Referent.new).state.destroyed = 1) ∧
    (∀ ops : List HandleCall, ops.head? ≠ some HandleCall.addRef →
      (Referent.run ops Referent.new).state.destroyed = 0) := by
  have honce : ∀ ops : List HandleCall, (Referent.run ops Referent.new).state.destroyed ≤ 1 :=
    fun ops => Referent.run_once ops Referent.new (Or.inl ⟨rfl, by decide⟩)
  refine ⟨?_, Referent.call_destroyed, honce, ?_, ?_, Referent.run_not_destroyed_of_head⟩
  · intro ops r heq
    have hnn := RefCountable.run_nonneg ops RefCountable.new (by decide)
    rw [heq] at hnn
    have hmark : r.destroy.refCount = -100000 := rfl
    omega
  · intro ops hne hnet hok
    have hpre : ∀ pre suf, ops = pre ++ suf → suf ≠ [] →
        (Referent.run pre Referent.new).fault = none ∧
        (Referent.run pre Referent.new).state.destroyed = 0 := by
      intro pre suf hsplit hsuf
      rw [hsplit] at hok
      exact Referent.run_prefix_alive pre suf hsuf hok
    rcases Referent.run_inv ops hok with ⟨_, hc, hpos⟩ | ⟨hd, _, _, pre, hsplit, _, _, h1⟩
    · have := hpos hne
      omega
    · exact ⟨hd, ⟨pre, hsplit, h1⟩, hpre⟩
  · intro ops hhead hnet hlen
    cases ops with
    | nil => simp at hhead
    | cons op rest =>
      simp only [List.head?_cons, Option.some.injEq] at hhead
      subst hhead
      have hle := honce (HandleCall.addRef :: rest)
      by_contra hne
      have hzero : (Referent.run (HandleCall.addRef :: rest) Referent.new).state.destroyed = 0 := by
        omega
      have hf : (Referent.call HandleCall.addRef Referent.new).fault = none := by decide
      rw [Referent.referent_run_cons_ok _ _ _ hf] at hzero
      simp only [List.length_cons] at hlen
      push_cast at hlen
      have hs : (Referent.call HandleCall.addRef Referent.new).state =
          { counter := { refCount := 1 }, destroyed := 0 } := by decide
      rw [hs] at hzero
      have := Referent.count_pos_of_not_destroyed rest _ rfl (by simp only; omega)
        (by simp only; omega) hzero
      rw [netHandleCount_cons_addRef] at hnet
      simp only at this
      omega

/-- Witness for C5, amended: two `AddRef` and two `Release` operations on a fresh object all
return, net to zero, and destroy it once; so do an `AddRef` and a `Release` that are
followed by a rejected `AddRef` and `Release`; a `Release` followed by an `AddRef` nets to
zero and does not destroy it. -/
theorem Referent.release_destroys_exactly_once_witness :
    [HandleCall.addRef, HandleCall.addRef, HandleCall.release, HandleCall.release] ≠ [] ∧
    netHandleCount
      [HandleCall.addRef, HandleCall.addRef, HandleCall.release, HandleCall.release] = 0 ∧
    (Referent.run [HandleCall.addRef, HandleCall.addRef, HandleCall.release, HandleCall.release]
      Referent.new).fault = none ∧
    (Referent.run [HandleCall.addRef, HandleCall.addRef, HandleCall.release, HandleCall.release]
      Referent.new).state.destroyed = 1 ∧
    [HandleCall.addRef, HandleCall.release, HandleCall.addRef, HandleCall.release].head? =
      some HandleCall.addRef ∧
    (Referent.run [HandleCall.addRef, HandleCall.release, HandleCall.addRef, HandleCall.release]
      Referent.new).state.destroyed = 1 ∧
    [HandleCall.release, HandleCall.addRef].head? ≠ some HandleCall.addRef ∧
    netHandleCount [HandleCall.release, HandleCall.addRef] = 0 ∧
    (Referent.run [HandleCall.release, HandleCall.addRef] Referent.new).state.destroyed = 0 :=
  ⟨by decide, by decide, by decide,
   (Referent.release_destroys_exactly_once.2.2.2.1
      [HandleCall.addRef, HandleCall.addRef, HandleCall.release, HandleCall.release]
      (by decide) (by decide) (by decide)).1,
   by decide,
   Referent.release_destroys_exactly_once.2.2.2.2.1
      [HandleCall.addRef, HandleCall.release, HandleCall.addRef, HandleCall.release]
      (by decide) (by decide) (by decide),
   by decide, by decide,
   Referent.release_destroys_exactly_once.2.2.2.2.2 [HandleCall.release, HandleCall.addRef]
      (by decide)⟩

/-! ## Handles -/

theorem SharedPtr.AddRef_null (h : Heap) :
    SharedPtr.AddRef SharedPtr.null h = { fault := none, state := h } := rfl

theorem SharedPtr.copy_null (h : Heap) :
    SharedPtr.copy SharedPtr.null h = { fault := none, state := (SharedPtr.null, h) } := rfl

theorem SharedPtr.drop_null (h : Heap) :
    SharedPtr.drop SharedPtr.null h = { fault := none, state := (SharedPtr.null, h) } := rfl

theorem SharedPtr.copy_eq (p : SharedPtr) (h : Heap) (hp : p.dataPtr ≠ 0) :
    SharedPtr.copy p h =
      { fault := (h p.dataPtr).counter.AddRef.fault
        state := (p, Function.update h p.dataPtr
          { counter := (h p.dataPtr).counter.AddRef.state
            destroyed := (h p.dataPtr).destroyed }) } := by
  cases p
  simp only [SharedPtr.copy, SharedPtr.fromRaw, SharedPtr.AddRef] at hp ⊢
  simp only [if_neg hp, Referent.addRef_fault, Referent.addRef_state]

theorem SharedPtr.drop_eq (p : SharedPtr) (h : Heap) (hp : p.dataPtr ≠ 0)
    (hpos : 0 < (h p.dataPtr).counter.refCount) :
    SharedPtr.drop p h =
      { fault := none
        state := (SharedPtr.null, Function.update h p.dataPtr
          (if (h p.dataPtr).counter.refCount = 1 then
            { counter := { refCount := -100000 }, destroyed := (h p.dataPtr).destroyed + 1 }
           else { counter := { refCount := (h p.dataPtr).counter.refCount - 1 }
                  destroyed := (h p.dataPtr).destroyed })) } := by
  have hrel := Referent.release_eq (h p.dataPtr)
  rw [if_neg (by omega)] at hrel
  by_cases h1 : (h p.dataPtr).counter.refCount = 1
  · rw [if_pos h1] at hrel
    simp only [SharedPtr.drop, SharedPtr.Release, if_neg hp, hrel, if_pos h1]
  · rw [if_neg h1] at hrel
    simp only [SharedPtr.drop, SharedPtr.Release, if_neg hp, hrel, if_neg h1]

theorem SharedPtr.drop_fault (p : SharedPtr) (h : Heap) (hp : p.dataPtr ≠ 0)
    (hneg : (h p.dataPtr).counter.refCount ≤ 0) :
    (SharedPtr.drop p h).fault = some Fault.assertion := by
  have hrel := Referent.release_eq (h p.dataPtr)
  rw [if_pos hneg] at hrel
  simp only [SharedPtr.drop, SharedPtr.Release, if_neg hp, hrel]

theorem Handles.handles_run_nil (w : Handles) :
    Handles.run [] w = { fault := none, state := w } := rfl

theorem Handles.handles_run_cons_ok (op : HandleOp) (ops : List HandleOp) (w : Handles)
    (h : (Handles.step op w).fault = none) :
    Handles.run (op :: ops) w = Handles.run ops (Handles.step op w).state := by
  simp only [Handles.run, h]

theorem Handles.handles_run_cons_fault (op : HandleOp) (ops : List HandleOp) (w : Handles)
    (f : Fault) (h : (Handles.step op w).fault = some f) :
    Handles.run (op :: ops) w = Handles.step op w := by
  simp only [Handles.run, h]

theorem Handles.handles_run_append (l1 l2 : List HandleOp) : ∀ w : Handles,
    Handles.run (l1 ++ l2) w =
      if (Handles.run l1 w).fault = none then Handles.run l2 (Handles.run l1 w).state
      else Handles.run l1 w := by
  induction l1 with
  | nil => intro w; simp [Handles.handles_run_nil]
  | cons op ops ih =>
    intro w
    rcases hf : (Handles.step op w).fault with _ | f
    · rw [List.cons_append, Handles.handles_run_cons_ok _ _ _ hf, Handles.handles_run_cons_ok _ _ _ hf, ih]
    · rw [List.cons_append, Handles.handles_run_cons_fault _ _ _ f hf,
        Handles.handles_run_cons_fault _ _ _ f hf, if_neg (by rw [hf]; simp)]

/-- `AddRef` on a counter holding `m` with room below `INT_MAX`. -/
theorem RefCountable.AddRef_of_nat (m : Nat) (hb : (m : Int) + 1 ≤ INT_MAX) :
    (RefCountable.mk (m : Int)).AddRef =
      { fault := none, state := { refCount := ((m + 1 : Nat) : Int) } } := by
  have h0 : (0 : Int) ≤ (m : Int) := Int.ofNat_nonneg m
  rw [Call.eq_iff, RefCountable.AddRef_state, RefCountable.AddRef_fault]
  have hn : ¬ ((m : Int) < 0) := by omega
  simp only [if_neg hn, if_pos hb, if_true, true_and]
  push_cast
  rfl

/-- Creating the first handle to a fresh object at `a`. -/
theorem Handles.step_create_fresh (a : Nat) (h : Heap) (ha : a ≠ 0)
    (hfresh : h a = Referent.new) :
    (Handles.step (HandleOp.create a) { heap := h, handles := [] }).fault = none ∧
    (Handles.step (HandleOp.create a) { heap := h, handles := [] }).state.handles =
      List.replicate 1 { dataPtr := a } ∧
    (Handles.step (HandleOp.create a) { heap := h, handles := [] }).state.heap a =
      { counter := { refCount := ((1 : Nat) : Int) }, destroyed := 0 } := by
  have hcopy := SharedPtr.copy_eq { dataPtr := a } h ha
  have hadd := RefCountable.AddRef_of_nat 0 (by decide)
  have hcnt : (h a).counter = { refCount := ((0 : Nat) : Int) } := by rw [hfresh]; rfl
  have hd : (h a).destroyed = 0 := by rw [hfresh]; rfl
  simp only [hcnt, hadd, hd] at hcopy
  have hraw : SharedPtr.fromRaw a h = SharedPtr.copy { dataPtr := a } h := rfl
  simp only [Handles.step, hraw, hcopy, List.nil_append, List.replicate, Function.update_same,
    and_self]

/-- Copying one of `m` handles that all point to the live object at `a`. -/
theorem Handles.step_copy_live (a m i : Nat) (w : Handles) (ha : a ≠ 0)
    (hw : w.handles = List.replicate m { dataPtr := a })
    (hc : w.heap a = { counter := { refCount := (m : Int) }, destroyed := 0 })
    (hi : i < m) (hb : (m : Int) + 1 ≤ INT_MAX) :
    (Handles.step (HandleOp.copy i) w).fault = none ∧
    (Handles.step (HandleOp.copy i) w).state.handles =
      List.replicate (m + 1) { dataPtr := a } ∧
    (Handles.step (HandleOp.copy i) w).state.heap a =
      { counter := { refCount := ((m + 1 : Nat) : Int) }, destroyed := 0 } := by
  have hget : w.handles[i]? = some { dataPtr := a } := by
    rw [hw, List.getElem?_replicate_of_lt hi]
  have hcopy := SharedPtr.copy_eq { dataPtr := a } w.heap ha
  have hadd := RefCountable.AddRef_of_nat m hb
  simp only [hc, hadd] at hcopy
  simp only [Handles.step, hget, hcopy, Function.update_same, true_and, and_true]
  rw [hw]
  exact (List.replicate_succ' m _).symm

/-- A run of copies, each from an existing handle, of handles that all point to the live
object at `a`: every copy adds one to the count. -/
theorem Handles.run_copies (a : Nat) (ha : a ≠ 0) (srcs : List Nat) : ∀ (m : Nat) (w : Handles),
    w.handles = List.replicate m { dataPtr := a } →
    w.heap a = { counter := { refCount := (m : Int) }, destroyed := 0 } →
    ValidCopies m srcs → ((m + srcs.length : Nat) : Int) ≤ INT_MAX →
    (Handles.run (srcs.map HandleOp.copy) w).fault = none ∧
    (Handles.run (srcs.map HandleOp.copy) w).state.handles =
      List.replicate (m + srcs.length) { dataPtr := a } ∧
    (Handles.run (srcs.map HandleOp.copy) w).state.heap a =
      { counter := { refCount := ((m + srcs.length : Nat) : Int) }, destroyed := 0 } := by
  induction srcs with
  | nil =>
    intro m w hw hc _ _
    simpa [Handles.handles_run_nil] using ⟨hw, hc⟩
  | cons src rest ih =>
    intro m w hw hc hvalid hb
    obtain ⟨hsrc, hrest⟩ := hvalid
    simp only [List.length_cons] at hb ⊢
    have hb1 : (m : Int) + 1 ≤ INT_MAX := by push_cast at hb; omega
    obtain ⟨hf, hh, hcell⟩ := Handles.step_copy_live a m src w ha hw hc hsrc hb1
    rw [List.map_cons, Handles.handles_run_cons_ok _ _ _ hf]
    have := ih (m + 1) _ hh hcell hrest (by push_cast at hb ⊢; omega)
    have hlen : m + 1 + rest.length = m + (rest.length + 1) := by omega
    rw [hlen] at this
    exact this

/-- Dropping a handle variable that points to `a`: the call returns, the variable is left
null, one handle fewer points to `a`, and the object still counts its handles. -/
theorem Handles.step_drop_live (a i : Nat) (w : Handles) (ha : a ≠ 0)
    (hi : w.handles[i]? = some { dataPtr := a }) (hinv : Handles.Counted a w) :
    (Handles.step (HandleOp.drop i) w).fault = none ∧
    (Handles.step (HandleOp.drop i) w).state.handles = w.handles.set i SharedPtr.null ∧
    Handles.live a (Handles.step (HandleOp.drop i) w).state + 1 = Handles.live a w ∧
    Handles.Counted a (Handles.step (HandleOp.drop i) w).state := by
  obtain ⟨hlt, hget⟩ := List.getElem?_eq_some.1 hi
  have hle := List.boole_getElem_le_countP (fun p : SharedPtr => decide (p.dataPtr = a))
    w.handles i hlt
  rw [hget] at hle
  simp only [decide_True, if_true] at hle
  have hlive : 1 ≤ Handles.live a w := hle
  rcases hinv with ⟨_, hd, hc⟩ | ⟨h0, _, _⟩
  swap
  · omega
  have hdrop := SharedPtr.drop_eq { dataPtr := a } w.heap ha (by simp only; omega)
  simp only at hdrop
  have hset : (w.handles.set i SharedPtr.null).countP (fun p => decide (p.dataPtr = a)) + 1 =
      Handles.live a w := by
    rw [List.countP_set _ _ _ _ hlt, hget]
    have hnull : decide (SharedPtr.null.dataPtr = a) = false := by
      simp only [SharedPtr.null, decide_eq_false_iff_not]
      exact fun h => ha h.symm
    simp only [decide_True, if_true, hnull, Bool.false_eq_true, if_false, Nat.add_zero]
    simp only [Handles.live] at hlive
    simp only [Handles.live]
    omega
  have hnullh : (SharedPtr.drop { dataPtr := a } w.heap).state.1 = SharedPtr.null := by
    rw [hdrop]
  have hfault : (SharedPtr.drop { dataPtr := a } w.heap).fault = none := by
    rw [hdrop]
  have hheap : (SharedPtr.drop { dataPtr := a } w.heap).state.2 a =
      if (w.heap a).counter.refCount = 1 then
        { counter := { refCount := -100000 }, destroyed := (w.heap a).destroyed + 1 }
      else { counter := { refCount := (w.heap a).counter.refCount - 1 }
             destroyed := (w.heap a).destroyed } := by
    rw [hdrop]
    simp only [Function.update_same]
  simp only [Handles.step, hi, hnullh, hfault, true_and, Handles.Counted, Handles.live, hheap]
  refine ⟨hset, ?_⟩
  simp only [Handles.live] at hset hlive hc
  by_cases h1 : (w.heap a).counter.refCount = 1
  · right
    simp only [if_pos h1]
    refine ⟨by omega, by omega, trivial⟩
  · left
    simp only [if_neg h1]
    refine ⟨by omega, hd, by omega⟩

/-- Dropping distinct handle variables that point to `a`, in any order: every drop returns
and takes one handle away, and the object still counts its handles. -/
theorem Handles.run_drops (a : Nat) (ha : a ≠ 0) (ds : List Nat) : ∀ w : Handles,
    ds.Nodup → (∀ i ∈ ds, w.handles[i]? = some { dataPtr := a }) → Handles.Counted a w →
    (Handles.run (ds.map HandleOp.drop) w).fault = none ∧
    Handles.live a (Handles.run (ds.map HandleOp.drop) w).state + ds.length = Handles.live a w ∧
    Handles.Counted a (Handles.run (ds.map HandleOp.drop) w).state := by
  induction ds with
  | nil =>
    intro w _ _ hinv
    simpa [Handles.handles_run_nil] using hinv
  | cons i rest ih =>
    intro w hnd hmem hinv
    obtain ⟨hi_notin, hnd_rest⟩ := List.nodup_cons.1 hnd
    obtain ⟨hf, hh, hl, hinv1⟩ :=
      Handles.step_drop_live a i w ha (hmem i (List.mem_cons_self _ _)) hinv
    rw [List.map_cons, Handles.handles_run_cons_ok _ _ _ hf]
    have hmem1 : ∀ j ∈ rest,
        (Handles.step (HandleOp.drop i) w).state.handles[j]? = some { dataPtr := a } := by
      intro j hj
      have hne : i ≠ j := fun h => hi_notin (h ▸ hj)
      rw [hh, List.getElem?_set_ne hne]
      exact hmem j (List.mem_cons_of_mem _ hj)
    obtain ⟨hf2, hl2, hinv2⟩ := ih _ hnd_rest hmem1 hinv1
    refine ⟨hf2, ?_, hinv2⟩
    simp only [List.length_cons]
    omega

/-- C7. Handles count their referent.  A copy of a non-null handle adds exactly one to the
count of the referent and touches nothing else; a drop takes exactly one away (and destroys
the referent when the count was 1) and leaves the handle null; a null handle touches no
referent.  For a handle to a fresh object that is copied `N` times, each time from an
existing handle, and whose `N + 1` handles are then dropped in any order: every operation
returns, the count is `N + 1` after the copies, the referent is not destroyed while handles
remain, and after the last drop it has been destroyed exactly once. -/
theorem SharedPtr.destroyed_once_after_all_drops :
    (∀ (p : SharedPtr) (h : Heap), p.dataPtr ≠ 0 → (SharedPtr.copy p h).fault = none →
      (SharedPtr.copy p h).state.1 = p ∧
      ((SharedPtr.copy p h).state.2 p.dataPtr).counter.RefCount =
        (h p.dataPtr).counter.RefCount + 1 ∧
      ((SharedPtr.copy p h).state.2 p.dataPtr).destroyed = (h p.dataPtr).destroyed ∧
      ∀ b, b ≠ p.dataPtr → (SharedPtr.copy p h).state.2 b = h b) ∧
    (∀ (p : SharedPtr) (h : Heap), p.dataPtr ≠ 0 → (SharedPtr.drop p h).fault = none →
      (SharedPtr.drop p h).state.1 = SharedPtr.null ∧
      ((h p.dataPtr).counter.RefCount ≠ 1 →
        ((SharedPtr.drop p h).state.2 p.dataPtr).counter.RefCount =
          (h p.dataPtr).counter.RefCount - 1 ∧
        ((SharedPtr.drop p h).state.2 p.dataPtr).destroyed = (h p.dataPtr).destroyed) ∧
      ((h p.dataPtr).counter.RefCount = 1 →
        ((SharedPtr.drop p h).state.2 p.dataPtr).destroyed = (h p.dataPtr).destroyed + 1) ∧
      ∀ b, b ≠ p.dataPtr → (SharedPtr.drop p h).state.2 b = h b) ∧
    (∀ h : Heap,
      SharedPtr.copy SharedPtr.null h = { fault := none, state := (SharedPtr.null, h) } ∧
      SharedPtr.drop SharedPtr.null h = { fault := none, state := (SharedPtr.null, h) }) ∧
    (∀ (h : Heap) (a N : Nat) (srcs drops : List Nat), a ≠ 0 → h a = Referent.new →
      srcs.length = N → ValidCopies 1 srcs → drops.Perm (List.range (N + 1)) →
      ((N + 1 : Nat) : Int) ≤ INT_MAX →
      (Handles.run (HandleOp.create a :: srcs.map HandleOp.copy)
        { heap := h, handles := [] }).fault = none ∧
      ((Handles.run (HandleOp.create a :: srcs.map HandleOp.copy)
        { heap := h, handles := [] }).state.heap a).counter.RefCount = ((N + 1 : Nat) : Int) ∧
      (∀ pre suf, drops = pre ++ suf → suf ≠ [] →
        (Handles.run (HandleOp.create a :: (srcs.map HandleOp.copy ++ pre.map HandleOp.drop))
          { heap := h, handles := [] }).fault = none ∧
        ((Handles.run (HandleOp.create a :: (srcs.map HandleOp.copy ++ pre.map HandleOp.drop))
          { heap := h, handles := [] }).state.heap a).destroyed = 0 ∧
        ((Handles.run (HandleOp.create a :: (srcs.map HandleOp.copy ++ pre.map HandleOp.drop))
          { heap := h, handles := [] }).state.heap a).counter.RefCount =
            ((N + 1 : Nat) : Int) - (pre.length : Int)) ∧
      (Handles.run (HandleOp.create a :: (srcs.map HandleOp.copy ++ drops.map HandleOp.drop))
        { heap := h, handles := [] }).fault = none ∧
      ((Handles.run (HandleOp.create a :: (srcs.map HandleOp.copy ++ drops.map HandleOp.drop))
        { heap := h, handles := [] }).state.heap a).destroyed = 1) := by
  refine ⟨?_, ?_, fun h => ⟨rfl, rfl⟩, ?_⟩
  · intro p h hp hok
    rw [SharedPtr.copy_eq p h hp] at hok ⊢
    simp only at hok
    have hs := RefCountable.AddRef_state (h p.dataPtr).counter
    rw [if_pos hok] at hs
    simp only [Function.update_same, hs, RefCountable.RefCount, true_and]
    intro b hb
    exact Function.update_noteq hb _ _
  · intro p h hp hok
    have hpos : 0 < (h p.dataPtr).counter.refCount := by
      by_contra hn
      rw [SharedPtr.drop_fault p h hp (by omega)] at hok
      exact absurd hok (by simp)
    rw [SharedPtr.drop_eq p h hp hpos]
    simp only [Function.update_same, RefCountable.RefCount, true_and]
    refine ⟨fun h1 => ?_, fun h1 => ?_, fun b hb => Function.update_noteq hb _ _⟩
    · simp only [if_neg h1, and_self]
    · simp only [if_pos h1]
  · intro h a N srcs drops ha hfresh hlen hvalid hperm hbound
    obtain ⟨hf0, hh0, hc0⟩ := Handles.step_create_fresh a h ha hfresh
    have hb1 : ((1 + srcs.length : Nat) : Int) ≤ INT_MAX := by
      rw [hlen, Nat.add_comm]; exact hbound
    obtain ⟨hf1, hh1, hc1⟩ := Handles.run_copies a ha srcs 1 _ hh0 hc0 hvalid hb1
    have hN : 1 + srcs.length = N + 1 := by omega
    rw [hN] at hh1 hc1
    have hcopies : Handles.run (HandleOp.create a :: srcs.map HandleOp.copy)
        { heap := h, handles := [] } =
        Handles.run (srcs.map HandleOp.copy)
          (Handles.step (HandleOp.create a) { heap := h, handles := [] }).state :=
      Handles.handles_run_cons_ok _ _ _ hf0
    have hlive1 : Handles.live a (Handles.run (srcs.map HandleOp.copy)
        (Handles.step (HandleOp.create a) { heap := h, handles := [] }).state).state = N + 1 := by
      simp only [Handles.live, hh1, List.countP_replicate, decide_True, if_true]
    have hcounted : Handles.Counted a (Handles.run (srcs.map HandleOp.copy)
        (Handles.step (HandleOp.create a) { heap := h, handles := [] }).state).state := by
      left
      rw [hlive1, hc1]
      exact ⟨by omega, rfl, rfl⟩
    have hnd : drops.Nodup := (hperm.nodup_iff).2 (List.nodup_range _)
    have hdlen : drops.length = N + 1 := by rw [hperm.length_eq, List.length_range]
    have hmem : ∀ i ∈ drops, (Handles.run (srcs.map HandleOp.copy)
        (Handles.step (HandleOp.create a) { heap := h, handles := [] }).state).state.handles[i]? =
          some { dataPtr := a } := by
      intro i hi
      have hlt : i < N + 1 := List.mem_range.1 ((hperm.mem_iff).1 hi)
      rw [hh1, List.getElem?_replicate_of_lt hlt]
    have hafter : ∀ ds : List Nat,
        Handles.run (HandleOp.create a :: (srcs.map HandleOp.copy ++ ds.map HandleOp.drop))
          { heap := h, handles := [] } =
        Handles.run (ds.map HandleOp.drop) (Handles.run (srcs.map HandleOp.copy)
          (Handles.step (HandleOp.create a) { heap := h, handles := [] }).state).state := by
      intro ds
      rw [Handles.handles_run_cons_ok _ _ _ hf0, Handles.handles_run_append, if_pos hf1]
    refine ⟨by rw [hcopies]; exact hf1, by rw [hcopies, hc1]; rfl, ?_, ?_⟩
    · intro pre suf hsplit hsuf
      have hnd_pre : pre.Nodup := by
        rw [hsplit] at hnd
        exact (List.nodup_append.1 hnd).1
      have hmem_pre : ∀ i ∈ pre, (Handles.run (srcs.map HandleOp.copy)
          (Handles.step (HandleOp.create a) { heap := h, handles := [] }).state).state.handles[i]? =
            some { dataPtr := a } := by
        intro i hi
        exact hmem i (by rw [hsplit]; exact List.mem_append_left _ hi)
      have hlen_pre : pre.length < N + 1 := by
        have hsl : 0 < suf.length := List.length_pos.2 hsuf
        have : (pre ++ suf).length = N + 1 := by rw [← hsplit]; exact hdlen
        rw [List.length_append] at this
        omega
      obtain ⟨hf2, hl2, hinv2⟩ := Handles.run_drops a ha pre _ hnd_pre hmem_pre hcounted
      rw [hafter pre]
      rw [hlive1] at hl2
      refine ⟨hf2, ?_⟩
      rcases hinv2 with ⟨_, hd, hc⟩ | ⟨h0, _, _⟩
      · refine ⟨hd, ?_⟩
        simp only [RefCountable.RefCount]
        rw [hc]
        omega
      · omega
    · obtain ⟨hf2, hl2, hinv2⟩ := Handles.run_drops a ha drops _ hnd hmem hcounted
      rw [hafter drops]
      rw [hlive1, hdlen] at hl2
      refine ⟨hf2, ?_⟩
      rcases hinv2 with ⟨hpos, _, _⟩ | ⟨_, hd, _⟩
      · omega
      · exact hd

/-- Witness for C7: a handle to the fresh object at address 1 is copied twice and the
three handles are dropped in the order second, third, first. -/
theorem SharedPtr.destroyed_once_after_all_drops_witness :
    (1 : Nat) ≠ 0 ∧ (fun _ : Nat => Referent.new) 1 = Referent.new ∧
    [0, 1].length = 2 ∧ ValidCopies 1 [0, 1] ∧ [1, 2, 0].Perm (List.range (2 + 1)) ∧
    ((2 + 1 : Nat) : Int) ≤ INT_MAX ∧
    ((Handles.run (HandleOp.create 1 ::
        ([0, 1].map HandleOp.copy ++ [1, 2, 0].map HandleOp.drop))
      { heap := fun _ => Referent.new, handles := [] }).state.heap 1).destroyed = 1 :=
  ⟨by decide, rfl, rfl, by decide, by decide, by decide,
   (SharedPtr.destroyed_once_after_all_drops.2.2.2 (fun _ => Referent.new) 1 2 [0, 1] [1, 2, 0]
      (by decide) rfl rfl (by decide) (by decide) (by decide)).2.2.2.2⟩

/-! ## The default content ID -/

/-- C9. The default `IMessageHandler::ComputeContentID` returns 0, "no content ID", for
every message identifier, every data buffer and every length, whatever its arguments. -/
theorem IMessageHandler.ComputeContentID_eq_zero :
    (∀ (messageId : Nat) (data : Option (List Nat)) (numBytes : Nat),
      IMessageHandler.ComputeContentID messageId data numBytes = 0) ∧
    (∀ (m1 m2 : Nat) (d1 d2 : Option (List Nat)) (n1 n2 : Nat),
      IMessageHandler.ComputeContentID m1 d1 n1 = IMessageHandler.ComputeContentID m2 d2 n2) :=
  ⟨fun _ _ _ => rfl, fun _ _ _ _ _ _ => rfl⟩

/-! ## Log channel filter -/

theorem LogState.Time_channels (clock : Clock) (s : LogState) :
    (LogState.Time clock s).2.kNetActiveLogChannels = s.kNetActiveLogChannels := by
  unfold LogState.Time; split_ifs <;> rfl

theorem LogState.Time_logFile (clock : Clock) (s : LogState) :
    (LogState.Time clock s).2.kNetLogFile = s.kNetLogFile := by
  unfold LogState.Time; split_ifs <;> rfl

/-- The line a logging call writes on an active channel. -/
theorem LogState.writeLine_sinkText (clock : Clock) (errorStr : String) (s : LogState) :
    (LogState.writeLine clock errorStr s).sinkText =
      s.sinkText ++ ((LogState.Time clock s).1 ++ ": " ++ errorStr ++ "\n") ∧
    (LogState.writeLine clock errorStr s).kNetActiveLogChannels = s.kNetActiveLogChannels ∧
    (LogState.writeLine clock errorStr s).kNetLogFile = s.kNetLogFile := by
  unfold LogState.writeLine LogState.sinkText
  rcases hf : s.kNetLogFile with _ | path
  · simp only [LogState.Time_channels, LogState.Time_logFile, hf, and_self]
  · simp only [LogState.Time_channels, LogState.Time_logFile, hf, Function.update_same,
      and_self]

theorem String.append_ne_self_of_length_pos (a b : String) (h : 0 < b.length) : a ++ b ≠ a := by
  intro heq
  have := congrArg String.length heq
  rw [String.length_append] at this
  omega

theorem LogState.line_length_pos (t errorStr : String) :
    0 < (t ++ ": " ++ errorStr ++ "\n").length := by
  rw [String.length_append]
  have : ("\n" : String).length = 1 := rfl
  omega

theorem LogState.land_eq_zero_iff (c : Nat) (s : LogState) :
    LogState.IsLogChannelActive c s = true ↔ (c &&& s.kNetActiveLogChannels) ≠ 0 := by
  simp [LogState.IsLogChannelActive]

/-- C10. Log filtering is by bitmask.  `GetLogChannels()` returns the mask last installed by
`SetLogChannels` (`LogUser` at the start); `IsLogChannelActive(c)` is true exactly when
`(c & m) != 0`; `TimeOutputDebugString` and `TimeOutputDebugStringVariadic` write one line
(time, `": "`, message, newline) exactly when `(c & m) != 0` and otherwise return with the
state unchanged; and the two entry points apply the same filter. -/
theorem LogState.filter_by_bitmask :
    (∀ (LogUser : Nat) (files : String → String),
      (LogState.initial LogUser files).GetLogChannels = LogUser) ∧
    (∀ (m : Nat) (s : LogState), (s.SetLogChannels m).GetLogChannels = m) ∧
    (∀ (c : Nat) (s : LogState),
      s.IsLogChannelActive c = true ↔ (c &&& s.GetLogChannels) ≠ 0) ∧
    (∀ (c m : Nat) (s : LogState),
      (s.SetLogChannels m).IsLogChannelActive c = true ↔ (c &&& m) ≠ 0) ∧
    (∀ (clock : Clock) (c : Nat) (f : String) (l : Int) (msg : String) (s : LogState),
      (c &&& s.GetLogChannels) = 0 → LogState.TimeOutputDebugString clock c f l msg s = s) ∧
    (∀ (clock : Clock) (c : Nat) (f : String) (l : Int) (msg expansion : String)
      (s : LogState), (c &&& s.GetLogChannels) = 0 →
      LogState.TimeOutputDebugStringVariadic clock c f l msg expansion s = s) ∧
    (∀ (clock : Clock) (c : Nat) (f : String) (l : Int) (msg : String) (s : LogState),
      (c &&& s.GetLogChannels) ≠ 0 →
      (LogState.TimeOutputDebugString clock c f l msg s).sinkText =
        s.sinkText ++ ((LogState.Time clock s).1 ++ ": " ++ snprintfText 1023 msg ++ "\n") ∧
      (LogState.TimeOutputDebugString clock c f l msg s).GetLogChannels = s.GetLogChannels) ∧
    (∀ (clock : Clock) (c : Nat) (f : String) (l : Int) (msg expansion : String)
      (s : LogState), (c &&& s.GetLogChannels) ≠ 0 →
      (LogState.TimeOutputDebugStringVariadic clock c f l msg expansion s).sinkText =
        s.sinkText ++ ((LogState.Time clock s).1 ++ ": " ++ snprintfText 1023 expansion ++ "\n") ∧
      (LogState.TimeOutputDebugStringVariadic clock c f l msg expansion s).GetLogChannels =
        s.GetLogChannels) ∧
    (∀ (clock : Clock) (c : Nat) (f : String) (l : Int) (msg : String) (s : LogState),
      ((LogState.TimeOutputDebugString clock c f l msg s).sinkText ≠ s.sinkText ↔
        (c &&& s.GetLogChannels) ≠ 0)) ∧
    (∀ (clock : Clock) (c : Nat) (f : String) (l : Int) (msg expansion : String)
      (s : LogState),
      ((LogState.TimeOutputDebugStringVariadic clock c f l msg expansion s).sinkText ≠
        s.sinkText ↔ (c &&& s.GetLogChannels) ≠ 0)) ∧
    (∀ (clock : Clock) (c : Nat) (f : String) (l : Int) (msg : String) (s : LogState),
      LogState.TimeOutputDebugStringVariadic clock c f l msg msg s =
        LogState.TimeOutputDebugString clock c f l msg s) := by
  have hplain : ∀ (clock : Clock) (c : Nat) (f : String) (l : Int) (msg : String)
      (s : LogState), LogState.TimeOutputDebugString clock c f l msg s =
        if (c &&& s.kNetActiveLogChannels) = 0 then s
        else LogState.writeLine clock (snprintfText 1023 msg) s := fun _ _ _ _ _ _ => rfl
  have hvar : ∀ (clock : Clock) (c : Nat) (f : String) (l : Int) (msg expansion : String)
      (s : LogState), LogState.TimeOutputDebugStringVariadic clock c f l msg expansion s =
        if (c &&& s.kNetActiveLogChannels) = 0 then s
        else LogState.writeLine clock (snprintfText 1023 expansion) s := by
    intro clock c f l msg expansion s
    unfold LogState.TimeOutputDebugStringVariadic LogState.IsLogChannelActive
    by_cases h : (c &&& s.kNetActiveLogChannels) = 0
    · simp [h]
    · simp [h]
  refine ⟨fun _ _ => rfl, fun _ _ => rfl, LogState.land_eq_zero_iff, ?_, ?_, ?_, ?_, ?_, ?_,
    ?_, ?_⟩
  · intro c m s
    exact LogState.land_eq_zero_iff c (s.SetLogChannels m)
  · intro clock c f l msg s h
    rw [hplain]
    exact if_pos h
  · intro clock c f l msg expansion s h
    rw [hvar]
    exact if_pos h
  · intro clock c f l msg s h
    have h2 : ¬ (c &&& s.kNetActiveLogChannels) = 0 := h
    rw [hplain, if_neg h2]
    exact ⟨(LogState.writeLine_sinkText clock _ s).1, (LogState.writeLine_sinkText clock _ s).2.1⟩
  · intro clock c f l msg expansion s h
    have h2 : ¬ (c &&& s.kNetActiveLogChannels) = 0 := h
    rw [hvar, if_neg h2]
    exact ⟨(LogState.writeLine_sinkText clock _ s).1, (LogState.writeLine_sinkText clock _ s).2.1⟩
  · intro clock c f l msg s
    rw [hplain]
    by_cases h : (c &&& s.kNetActiveLogChannels) = 0
    · rw [if_pos h]
      simp [LogState.GetLogChannels, h]
    · rw [if_neg h, (LogState.writeLine_sinkText clock _ s).1]
      simp only [LogState.GetLogChannels, ne_eq, h, not_false_eq_true, iff_true]
      exact String.append_ne_self_of_length_pos _ _ (LogState.line_length_pos _ _)
  · intro clock c f l msg expansion s
    rw [hvar]
    by_cases h : (c &&& s.kNetActiveLogChannels) = 0
    · rw [if_pos h]
      simp [LogState.GetLogChannels, h]
    · rw [if_neg h, (LogState.writeLine_sinkText clock _ s).1]
      simp only [LogState.GetLogChannels, ne_eq, h, not_false_eq_true, iff_true]
      exact String.append_ne_self_of_length_pos _ _ (LogState.line_length_pos _ _)
  · intro clock c f l msg s
    rw [hplain, hvar]

/-- Witness for C10: with the mask 1 installed, a message on channel 2 leaves the state as
it is and a message on channel 1 writes the line `0.000: hello`. -/
theorem LogState.filter_by_bitmask_witness :
    (2 &&& (LogState.initial 1 (fun _ => "")).GetLogChannels) = 0 ∧
    LogState.TimeOutputDebugString { tick := 7, secondsSince := fun _ => "1.5" } 2 "a.cpp" 3
      "hello" (LogState.initial 1 (fun _ => "")) = LogState.initial 1 (fun _ => "") ∧
    (1 &&& (LogState.initial 1 (fun _ => "")).GetLogChannels) ≠ 0 ∧
    (LogState.TimeOutputDebugString { tick := 7, secondsSince := fun _ => "1.5" } 1 "a.cpp" 3
      "hello" (LogState.initial 1 (fun _ => ""))).sinkText = "0.000: hello\n" :=
  ⟨by decide,
   LogState.filter_by_bitmask.2.2.2.2.1 { tick := 7, secondsSince := fun _ => "1.5" } 2 "a.cpp" 3
     "hello" (LogState.initial 1 (fun _ => "")) (by decide),
   by decide,
   ((LogState.filter_by_bitmask.2.2.2.2.2.2.1 { tick := 7, secondsSince := fun _ => "1.5" } 1
     "a.cpp" 3 "hello" (LogState.initial 1 (fun _ => "")) (by decide)).1).trans (by decide)⟩

/-! ## Equality of handles -/

/-- C11. Equality of two `SharedPtr<T>` handles compares the identity of the referent, not
the handle instance: `a == b` is true exactly when `a.ptr()` and `b.ptr()` are the same
pointer; it is reflexive, symmetric and transitive; two handle variables that point to one
object are equal, as is a copy and the handle it was copied from; and two null handles are
equal. -/
theorem SharedPtr.operator_eq_identity :
    (∀ a b : SharedPtr, SharedPtr.operator_eq a b = true ↔ a.ptr = b.ptr) ∧
    (∀ a : SharedPtr, SharedPtr.operator_eq a a = true) ∧
    (∀ a b : SharedPtr, SharedPtr.operator_eq a b = SharedPtr.operator_eq b a) ∧
    (∀ a b c : SharedPtr, SharedPtr.operator_eq a b = true → SharedPtr.operator_eq b c = true →
      SharedPtr.operator_eq a c = true) ∧
    (∀ (w : Handles) (i j : Nat) (p q : SharedPtr), i ≠ j → w.handles[i]? = some p →
      w.handles[j]? = some q → p.dataPtr = q.dataPtr → SharedPtr.operator_eq p q = true) ∧
    (∀ (p : SharedPtr) (h : Heap), SharedPtr.operator_eq (SharedPtr.copy p h).state.1 p = true) ∧
    SharedPtr.operator_eq SharedPtr.null SharedPtr.null = true ∧
    (∀ a b : SharedPtr, a.dataPtr = 0 → b.dataPtr = 0 → SharedPtr.operator_eq a b = true) := by
  have hiff : ∀ a b : SharedPtr, SharedPtr.operator_eq a b = true ↔ a.ptr = b.ptr := by
    intro a b
    unfold SharedPtr.operator_eq
    split_ifs with h
    · simp [h]
    · simp [h]
  refine ⟨hiff, ?_, ?_, ?_, ?_, ?_, ?_, ?_⟩
  · intro a
    exact (hiff a a).2 rfl
  · intro a b
    by_cases h : a.ptr = b.ptr
    · rw [(hiff a b).2 h, (hiff b a).2 h.symm]
    · have h1 : SharedPtr.operator_eq a b = false := by
        rw [← Bool.not_eq_true, hiff]; exact h
      have h2 : SharedPtr.operator_eq b a = false := by
        rw [← Bool.not_eq_true, hiff]; exact fun hh => h hh.symm
      rw [h1, h2]
  · intro a b c hab hbc
    exact (hiff a c).2 (((hiff a b).1 hab).trans ((hiff b c).1 hbc))
  · intro w i j p q _ _ _ hpq
    exact (hiff p q).2 hpq
  · intro p h
    exact (hiff _ _).2 rfl
  · exact (hiff _ _).2 rfl
  · intro a b ha hb
    exact (hiff a b).2 (by simp only [SharedPtr.ptr, ha, hb])

/-- Witness for C11: after a handle to the object at address 1 is created and copied, the
two handle variables compare equal; handles to the objects at addresses 1 and 2 do not. -/
theorem SharedPtr.operator_eq_identity_witness :
    (Handles.run [HandleOp.create 1, HandleOp.copy 0]
      { heap := fun _ => Referent.new, handles := [] }).state.handles[0]? =
        some { dataPtr := 1 } ∧
    (Handles.run [HandleOp.create 1, HandleOp.copy 0]
      { heap := fun _ => Referent.new, handles := [] }).state.handles[1]? =
        some { dataPtr := 1 } ∧
    SharedPtr.operator_eq { dataPtr := 1 } { dataPtr := 1 } = true ∧
    SharedPtr.operator_eq { dataPtr := 1 } { dataPtr := 2 } = false :=
  ⟨by decide, by decide,
   SharedPtr.operator_eq_identity.2.2.2.2.1
     (Handles.run [HandleOp.create 1, HandleOp.copy 0]
       { heap := fun _ => Referent.new, handles := [] }).state 0 1
     { dataPtr := 1 } { dataPtr := 1 } (by decide) (by decide) (by decide) rfl,
   by decide⟩

/-! ## The zero endpoint -/

/-- C12. A default-constructed `EndPoint` has all four ip bytes and the port equal to zero;
`Reset()` applied to any endpoint yields that same zero endpoint, and applied again changes
nothing; no endpoint is smaller than the zero endpoint under `operator<`. -/
theorem EndPoint.new_Reset_zero :
    (∀ uninit : EndPoint, EndPoint.new uninit =
      { ip0 := 0, ip1 := 0, ip2 := 0, ip3 := 0, port := 0 }) ∧
    (∀ e : EndPoint, e.Reset = { ip0 := 0, ip1 := 0, ip2 := 0, ip3 := 0, port := 0 }) ∧
    (∀ e : EndPoint, e.Reset.Reset = e.Reset) ∧
    (∀ e uninit : EndPoint, e.Reset = EndPoint.new uninit) ∧
    (∀ e : EndPoint, e.lt { ip0 := 0, ip1 := 0, ip2 := 0, ip3 := 0, port := 0 } = false) ∧
    (∀ e uninit : EndPoint, e.lt (EndPoint.new uninit) = false) := by
  have hlt : ∀ e : EndPoint,
      e.lt { ip0 := 0, ip1 := 0, ip2 := 0, ip3 := 0, port := 0 } = false := by
    intro e
    rw [← Bool.not_eq_true, EndPoint.lt_iff]
    simp only
    omega
  exact ⟨fun _ => rfl, fun _ => rfl, fun _ => rfl, fun _ _ => rfl, hlt, fun e _ => hlt e⟩

/-! ## Destination of a log line -/

theorem LogState.Time_files (clock : Clock) (s : LogState) :
    (LogState.Time clock s).2.files = s.files := by
  unfold LogState.Time; split_ifs <;> rfl

theorem LogState.Time_cout (clock : Clock) (s : LogState) :
    (LogState.Time clock s).2.cout = s.cout := by
  unfold LogState.Time; split_ifs <;> rfl

/-- With a log file open the line is appended to that file, and to nothing else. -/
theorem LogState.writeLine_file (clock : Clock) (errorStr path : String) (s : LogState)
    (hf : s.kNetLogFile = some path) :
    (LogState.writeLine clock errorStr s).files path =
      s.files path ++ ((LogState.Time clock s).1 ++ ": " ++ errorStr ++ "\n") ∧
    (LogState.writeLine clock errorStr s).cout = s.cout ∧
    (∀ other, other ≠ path → (LogState.writeLine clock errorStr s).files other = s.files other) ∧
    (LogState.writeLine clock errorStr s).kNetLogFile = some path := by
  unfold LogState.writeLine
  simp only [hf, Function.update_same, LogState.Time_cout, LogState.Time_logFile, true_and,
    and_true]
  intro other hne
  exact Function.update_noteq hne _ _

/-- With no log file open the line is appended to `std::cout`, and to nothing else. -/
theorem LogState.writeLine_cout (clock : Clock) (errorStr : String) (s : LogState)
    (hf : s.kNetLogFile = none) :
    (LogState.writeLine clock errorStr s).cout =
      s.cout ++ ((LogState.Time clock s).1 ++ ": " ++ errorStr ++ "\n") ∧
    (LogState.writeLine clock errorStr s).files = s.files ∧
    (LogState.writeLine clock errorStr s).kNetLogFile = none := by
  unfold LogState.writeLine
  simp only [hf, LogState.Time_files, LogState.Time_logFile, and_self]

theorem LogState.TimeOutputDebugString_active (clock : Clock) (c : Nat) (f : String) (l : Int)
    (msg : String) (s : LogState) (h : (c &&& s.GetLogChannels) ≠ 0) :
    LogState.TimeOutputDebugString clock c f l msg s =
      LogState.writeLine clock (LogState.snprintfText 1023 msg) s := by
  have h2 : ¬ (c &&& s.kNetActiveLogChannels) = 0 := h
  unfold LogState.TimeOutputDebugString
  rw [if_neg h2]

theorem LogState.TimeOutputDebugStringVariadic_active (clock : Clock) (c : Nat) (f : String)
    (l : Int) (msg expansion : String) (s : LogState) (h : (c &&& s.GetLogChannels) ≠ 0) :
    LogState.TimeOutputDebugStringVariadic clock c f l msg expansion s =
      LogState.writeLine clock (LogState.snprintfText 1023 expansion) s := by
  have h2 : ¬ (c &&& s.kNetActiveLogChannels) = 0 := h
  unfold LogState.TimeOutputDebugStringVariadic LogState.IsLogChannelActive
  simp [h2]

/-- What `SetLogFile` leaves: the stream is open on `name` exactly when a non-empty name
was given and the file could be opened; nothing else changes. -/
theorem LogState.SetLogFile_eq (filename : Option String) (opens : Bool) (s : LogState) :
    (LogState.SetLogFile filename opens s).kNetLogFile =
      (match filename with
       | some name => if name.length > 0 ∧ opens = true then some name else none
       | none => none) ∧
    (LogState.SetLogFile filename opens s).cout = s.cout ∧
    (LogState.SetLogFile filename opens s).files = s.files ∧
    (LogState.SetLogFile filename opens s).kNetActiveLogChannels = s.kNetActiveLogChannels := by
  unfold LogState.SetLogFile
  cases filename with
  | none => exact ⟨rfl, rfl, rfl, rfl⟩
  | some name =>
    by_cases hlen : name.length > 0
    · cases opens
      · simp [hlen]
      · simp [hlen]
    · simp [hlen]

theorem LogState.Time_fst (clock : Clock) (s : LogState) :
    (LogState.Time clock s).1 =
      if s.firstCall then "0.000" else clock.secondsSince s.firstTick := by
  unfold LogState.Time; split_ifs <;> rfl

theorem LogState.SetLogFile_statics (filename : Option String) (opens : Bool) (s : LogState) :
    (LogState.SetLogFile filename opens s).firstCall = s.firstCall ∧
    (LogState.SetLogFile filename opens s).firstTick = s.firstTick := by
  unfold LogState.SetLogFile
  cases filename with
  | none => exact ⟨rfl, rfl⟩
  | some name =>
    by_cases hlen : name.length > 0
    · cases opens
      · simp [hlen]
      · simp [hlen]
    · simp [hlen]

theorem LogState.Time_SetLogFile (clock : Clock) (filename : Option String) (opens : Bool)
    (s : LogState) :
    (LogState.Time clock (LogState.SetLogFile filename opens s)).1 = (LogState.Time clock s).1 := by
  rw [LogState.Time_fst, LogState.Time_fst, (LogState.SetLogFile_statics filename opens s).1,
    (LogState.SetLogFile_statics filename opens s).2]

/-- C13. A message logged on an active channel is written as one line (timestamp, `": "`,
message, newline) to the log file when one is open, leaving `std::cout` and every other
file as they were, and to `std::cout` when no file is open, leaving every file as it was;
after `SetLogFile` with a null or an empty filename no file is open and the line goes to
`std::cout`. -/
theorem LogState.line_to_file_or_cout :
    (∀ (clock : Clock) (c : Nat) (f : String) (l : Int) (msg path : String) (s : LogState),
      (c &&& s.GetLogChannels) ≠ 0 → s.kNetLogFile = some path →
      (LogState.TimeOutputDebugString clock c f l msg s).files path =
        s.files path ++
          ((LogState.Time clock s).1 ++ ": " ++ LogState.snprintfText 1023 msg ++ "\n") ∧
      (LogState.TimeOutputDebugString clock c f l msg s).cout = s.cout ∧
      (∀ other, other ≠ path →
        (LogState.TimeOutputDebugString clock c f l msg s).files other = s.files other)) ∧
    (∀ (clock : Clock) (c : Nat) (f : String) (l : Int) (msg : String) (s : LogState),
      (c &&& s.GetLogChannels) ≠ 0 → s.kNetLogFile = none →
      (LogState.TimeOutputDebugString clock c f l msg s).cout =
        s.cout ++ ((LogState.Time clock s).1 ++ ": " ++ LogState.snprintfText 1023 msg ++ "\n") ∧
      (LogState.TimeOutputDebugString clock c f l msg s).files = s.files) ∧
    (∀ (clock : Clock) (c : Nat) (f : String) (l : Int) (msg expansion path : String)
      (s : LogState), (c &&& s.GetLogChannels) ≠ 0 → s.kNetLogFile = some path →
      (LogState.TimeOutputDebugStringVariadic clock c f l msg expansion s).files path =
        s.files path ++
          ((LogState.Time clock s).1 ++ ": " ++ LogState.snprintfText 1023 expansion ++ "\n") ∧
      (LogState.TimeOutputDebugStringVariadic clock c f l msg expansion s).cout = s.cout ∧
      (∀ other, other ≠ path →
        (LogState.TimeOutputDebugStringVariadic clock c f l msg expansion s).files other =
          s.files other)) ∧
    (∀ (clock : Clock) (c : Nat) (f : String) (l : Int) (msg expansion : String)
      (s : LogState), (c &&& s.GetLogChannels) ≠ 0 → s.kNetLogFile = none →
      (LogState.TimeOutputDebugStringVariadic clock c f l msg expansion s).cout =
        s.cout ++
          ((LogState.Time clock s).1 ++ ": " ++ LogState.snprintfText 1023 expansion ++ "\n") ∧
      (LogState.TimeOutputDebugStringVariadic clock c f l msg expansion s).files = s.files) ∧
    (∀ (opens : Bool) (s : LogState),
      (LogState.SetLogFile none opens s).kNetLogFile = none ∧
      (LogState.SetLogFile (some "") opens s).kNetLogFile = none) ∧
    (∀ (clock : Clock) (c : Nat) (f : String) (l : Int) (msg : String) (filename : Option String)
      (opens : Bool) (s : LogState), (c &&& s.GetLogChannels) ≠ 0 →
      filename = none ∨ filename = some "" →
      (LogState.TimeOutputDebugString clock c f l msg
        (LogState.SetLogFile filename opens s)).cout =
        s.cout ++ ((LogState.Time clock s).1 ++ ": " ++ LogState.snprintfText 1023 msg ++ "\n") ∧
      (LogState.TimeOutputDebugString clock c f l msg
        (LogState.SetLogFile filename opens s)).files = s.files) := by
  have hclosed : ∀ (filename : Option String) (opens : Bool) (s : LogState),
      filename = none ∨ filename = some "" →
      (LogState.SetLogFile filename opens s).kNetLogFile = none := by
    intro filename opens s hfn
    rcases hfn with rfl | rfl
    · rfl
    · cases opens <;> rfl
  refine ⟨?_, ?_, ?_, ?_, ?_, ?_⟩
  · intro clock c f l msg path s hact hfile
    rw [LogState.TimeOutputDebugString_active clock c f l msg s hact]
    obtain ⟨h1, h2, h3, _⟩ := LogState.writeLine_file clock _ path s hfile
    exact ⟨h1, h2, h3⟩
  · intro clock c f l msg s hact hfile
    rw [LogState.TimeOutputDebugString_active clock c f l msg s hact]
    obtain ⟨h1, h2, _⟩ := LogState.writeLine_cout clock _ s hfile
    exact ⟨h1, h2⟩
  · intro clock c f l msg expansion path s hact hfile
    rw [LogState.TimeOutputDebugStringVariadic_active clock c f l msg expansion s hact]
    obtain ⟨h1, h2, h3, _⟩ := LogState.writeLine_file clock _ path s hfile
    exact ⟨h1, h2, h3⟩
  · intro clock c f l msg expansion s hact hfile
    rw [LogState.TimeOutputDebugStringVariadic_active clock c f l msg expansion s hact]
    obtain ⟨h1, h2, _⟩ := LogState.writeLine_cout clock _ s hfile
    exact ⟨h1, h2⟩
  · intro opens s
    exact ⟨hclosed none opens s (Or.inl rfl), hclosed (some "") opens s (Or.inr rfl)⟩
  · intro clock c f l msg filename opens s hact hfn
    obtain ⟨_, hcout, hfiles, hmask⟩ := LogState.SetLogFile_eq filename opens s
    have hact2 : (c &&& (LogState.SetLogFile filename opens s).GetLogChannels) ≠ 0 := by
      simp only [LogState.GetLogChannels, hmask]
      exact hact
    rw [LogState.TimeOutputDebugString_active clock c f l msg _ hact2]
    obtain ⟨h1, h2, _⟩ := LogState.writeLine_cout clock (LogState.snprintfText 1023 msg) _
      (hclosed filename opens s hfn)
    rw [h1, h2, hcout, hfiles, LogState.Time_SetLogFile]
    exact ⟨rfl, rfl⟩

/-- Witness for C13: with the file `log.txt` open a message on the active channel 1 is
appended to that file and `std::cout` stays empty; after `SetLogFile` with a null filename
the same message goes to `std::cout`. -/
theorem LogState.line_to_file_or_cout_witness :
    (LogState.TimeOutputDebugString { tick := 7, secondsSince := fun _ => "1.5" } 1 "a.cpp" 3
      "hello" (LogState.SetLogFile (some "log.txt") true
        (LogState.initial 1 (fun _ => "old\n")))).files "log.txt" = "old\n0.000: hello\n" ∧
    (LogState.TimeOutputDebugString { tick := 7, secondsSince := fun _ => "1.5" } 1 "a.cpp" 3
      "hello" (LogState.SetLogFile (some "log.txt") true
        (LogState.initial 1 (fun _ => "old\n")))).cout = "" ∧
    (LogState.TimeOutputDebugString { tick := 7, secondsSince := fun _ => "1.5" } 1 "a.cpp" 3
      "hello" (LogState.SetLogFile none true
        (LogState.SetLogFile (some "log.txt") true
          (LogState.initial 1 (fun _ => "old\n"))))).cout = "0.000: hello\n" :=
  ⟨((LogState.line_to_file_or_cout.1 { tick := 7, secondsSince := fun _ => "1.5" } 1 "a.cpp" 3
      "hello" "log.txt" (LogState.SetLogFile (some "log.txt") true
        (LogState.initial 1 (fun _ => "old\n"))) (by decide) (by decide)).1).trans (by decide),
   (LogState.line_to_file_or_cout.1 { tick := 7, secondsSince := fun _ => "1.5" } 1 "a.cpp" 3
      "hello" "log.txt" (LogState.SetLogFile (some "log.txt") true
        (LogState.initial 1 (fun _ => "old\n"))) (by decide) (by decide)).2.1,
   ((LogState.line_to_file_or_cout.2.2.2.2.2 { tick := 7, secondsSince := fun _ => "1.5" } 1
      "a.cpp" 3 "hello" none true (LogState.SetLogFile (some "log.txt") true
        (LogState.initial 1 (fun _ => "old\n"))) (by decide) (Or.inl rfl)).1).trans (by decide)⟩

/-! ## Round trip from `sockaddr_in` -/

theorem htons_ntohs (le : Bool) (p : Nat) (hp : p < 65536) : htons le (ntohs le p) = p :=
  ntohs_htons le p hp

theorem byteSwap16_lt (x : Nat) : byteSwap16 x < 65536 := by
  unfold byteSwap16
  have h1 : x % 256 < 256 := Nat.mod_lt _ (by decide)
  have h2 : x / 256 % 256 < 256 := Nat.mod_lt _ (by decide)
  omega

/-- The endpoint read from any socket address has bytes and port within their types. -/
theorem EndPoint.FromSockAddrIn_wellFormed (le : Bool) (a : sockaddr_in) :
    (EndPoint.FromSockAddrIn le a).WellFormed := by
  have hm : ∀ x : Nat, toUChar x < 256 := fun x => Nat.mod_lt _ (by decide)
  refine ⟨hm _, hm _, hm _, hm _, ?_⟩
  show ntohs le a.sin_port < 65536
  unfold ntohs
  split_ifs
  · exact byteSwap16_lt _
  · exact Nat.mod_lt _ (by decide)

/-- C17. The reverse round trip.  For every `sockaddr_in` with `sin_family == AF_INET` and
zeroed padding, `FromSockAddrIn(a).ToSockAddrIn()` is `a` again; for any `a` the result of
`FromSockAddrIn` depends only on `sin_addr` and `sin_port` (and lies within the field
types); and `ToSockAddrIn` always produces `sin_family == AF_INET` and zeroed padding. -/
theorem EndPoint.ToSockAddrIn_FromSockAddrIn :
    (∀ (le : Bool) (a : sockaddr_in), a.InRange → a.sin_family = AF_INET →
      a.sin_zero = List.replicate 8 0 →
      (EndPoint.FromSockAddrIn le a).ToSockAddrIn le = a) ∧
    (∀ (le : Bool) (a : sockaddr_in), a.InRange →
      ((EndPoint.FromSockAddrIn le a).ToSockAddrIn le).s_addr = a.s_addr ∧
      ((EndPoint.FromSockAddrIn le a).ToSockAddrIn le).sin_port = a.sin_port) ∧
    (∀ (le : Bool) (a b : sockaddr_in), a.s_addr = b.s_addr → a.sin_port = b.sin_port →
      EndPoint.FromSockAddrIn le a = EndPoint.FromSockAddrIn le b) ∧
    (∀ (le : Bool) (a : sockaddr_in), (EndPoint.FromSockAddrIn le a).WellFormed) ∧
    (∀ (le : Bool) (e : EndPoint), (e.ToSockAddrIn le).sin_family = AF_INET ∧
      (e.ToSockAddrIn le).sin_zero = List.replicate 8 0) := by
  have hfields : ∀ (le : Bool) (a : sockaddr_in), a.InRange →
      ((EndPoint.FromSockAddrIn le a).ToSockAddrIn le).s_addr = a.s_addr ∧
      ((EndPoint.FromSockAddrIn le a).ToSockAddrIn le).sin_port = a.sin_port := by
    intro le a hr
    obtain ⟨hport, haddr⟩ := hr
    constructor
    · rw [EndPoint.s_addr_ToSockAddrIn le _ (EndPoint.FromSockAddrIn_wellFormed le a)]
      simp only [EndPoint.FromSockAddrIn, and_0xFF, Nat.shiftRight_eq_div_pow, toUChar,
        Nat.reducePow] at haddr ⊢
      omega
    · show htons le (ntohs le a.sin_port) = a.sin_port
      exact htons_ntohs le a.sin_port hport
  refine ⟨?_, hfields, ?_, EndPoint.FromSockAddrIn_wellFormed, fun _ _ => ⟨rfl, rfl⟩⟩
  · intro le a hr hfam hzero
    obtain ⟨h1, h2⟩ := hfields le a hr
    have h3 : ((EndPoint.FromSockAddrIn le a).ToSockAddrIn le).sin_family = a.sin_family := by
      rw [hfam]; rfl
    have h4 : ((EndPoint.FromSockAddrIn le a).ToSockAddrIn le).sin_zero = a.sin_zero := by
      rw [hzero]; rfl
    cases a
    cases hto : (EndPoint.FromSockAddrIn le _).ToSockAddrIn le
    rw [hto] at h1 h2 h3 h4
    simp only at h1 h2 h3 h4
    simp only [sockaddr_in.mk.injEq]
    exact ⟨h3, h2, h1, h4⟩
  · intro le a b haddr hport
    simp only [EndPoint.FromSockAddrIn, haddr, hport]

/-- Witness for C17: the address 192.168.1.200 port 8080 as a little-endian host holds it
(`s_addr` 0xC801A8C0, `sin_port` 0x901F). -/
theorem EndPoint.ToSockAddrIn_FromSockAddrIn_witness :
    (sockaddr_in.mk AF_INET 36895 3355551936 (List.replicate 8 0)).InRange ∧
    EndPoint.FromSockAddrIn true (sockaddr_in.mk AF_INET 36895 3355551936 (List.replicate 8 0)) =
      EndPoint.mk 192 168 1 200 8080 ∧
    (EndPoint.FromSockAddrIn true
      (sockaddr_in.mk AF_INET 36895 3355551936 (List.replicate 8 0))).ToSockAddrIn true =
        sockaddr_in.mk AF_INET 36895 3355551936 (List.replicate 8 0) :=
  ⟨by decide, by decide,
   EndPoint.ToSockAddrIn_FromSockAddrIn.1 true
     (sockaddr_in.mk AF_INET 36895 3355551936 (List.replicate 8 0)) (by decide) rfl rfl⟩

/-! ## Length and injectivity of the text form -/

/-- The characters of `IPToString()` for an endpoint within its field types. -/
theorem EndPoint.IPToString_chars (e : EndPoint) (h : e.WellFormed) :
    e.IPToString = some (String.mk (Nat.toDigits 10 e.ip0 ++ '.' ::
      (Nat.toDigits 10 e.ip1 ++ '.' :: (Nat.toDigits 10 e.ip2 ++ '.' ::
        Nat.toDigits 10 e.ip3)))) := by
  obtain ⟨h0, h1, h2, h3, _⟩ := h
  have l0 := toDigits_length_le e.ip0 3 (by decide) (by omega)
  have l1 := toDigits_length_le e.ip1 3 (by decide) (by omega)
  have l2 := toDigits_length_le e.ip2 3 (by decide) (by omega)
  have l3 := toDigits_length_le e.ip3 3 (by decide) (by omega)
  have hdot : ('.' : Char) ≠ Char.ofNat 0 := by decide
  have hf : vformat "%d.%d.%d.%d".toList
      [toUInt32 e.ip0, toUInt32 e.ip1, toUInt32 e.ip2, toUInt32 e.ip3] =
      some (Nat.toDigits 10 e.ip0 ++ '.' :: (Nat.toDigits 10 e.ip1 ++ '.' ::
        (Nat.toDigits 10 e.ip2 ++ '.' :: Nat.toDigits 10 e.ip3))) := by
    simp [vformat, printfD_of_lt e.ip0 (by omega), printfD_of_lt e.ip1 (by omega),
      printfD_of_lt e.ip2 (by omega), printfD_of_lt e.ip3 (by omega)]
  unfold EndPoint.IPToString sprintf
  rw [hf]
  simp only []
  rw [if_pos (by simp only [List.length_append, List.length_cons]; omega)]
  simp only [Option.map_some']
  rw [stdString_terminated]
  intro c hc
  simp only [List.mem_append, List.mem_cons] at hc
  rcases hc with hc | rfl | hc | rfl | hc | rfl | hc
  · exact toDigits_ne_nul _ c hc
  · exact hdot
  · exact toDigits_ne_nul _ c hc
  · exact hdot
  · exact toDigits_ne_nul _ c hc
  · exact hdot
  · exact toDigits_ne_nul _ c hc

/-- The characters of `ToString()` for an endpoint within its field types. -/
theorem EndPoint.ToString_chars (e : EndPoint) (h : e.WellFormed) :
    e.ToString = some (String.mk (Nat.toDigits 10 e.ip0 ++ '.' ::
      (Nat.toDigits 10 e.ip1 ++ '.' :: (Nat.toDigits 10 e.ip2 ++ '.' ::
        (Nat.toDigits 10 e.ip3 ++ ':' :: Nat.toDigits 10 e.port))))) := by
  obtain ⟨h0, h1, h2, h3, hp⟩ := h
  have l0 := toDigits_length_le e.ip0 3 (by decide) (by omega)
  have l1 := toDigits_length_le e.ip1 3 (by decide) (by omega)
  have l2 := toDigits_length_le e.ip2 3 (by decide) (by omega)
  have l3 := toDigits_length_le e.ip3 3 (by decide) (by omega)
  have lp := toDigits_length_le e.port 5 (by decide) (by omega)
  have hdot : ('.' : Char) ≠ Char.ofNat 0 := by decide
  have hcol : (':' : Char) ≠ Char.ofNat 0 := by decide
  have hf : vformat "%d.%d.%d.%d:%d".toList
      [toUInt32 e.ip0, toUInt32 e.ip1, toUInt32 e.ip2, toUInt32 e.ip3, toUInt32 e.port] =
      some (Nat.toDigits 10 e.ip0 ++ '.' :: (Nat.toDigits 10 e.ip1 ++ '.' ::
        (Nat.toDigits 10 e.ip2 ++ '.' :: (Nat.toDigits 10 e.ip3 ++ ':' ::
          Nat.toDigits 10 e.port)))) := by
    simp [vformat, printfD_of_lt e.ip0 (by omega), printfD_of_lt e.ip1 (by omega),
      printfD_of_lt e.ip2 (by omega), printfD_of_lt e.ip3 (by omega),
      printfD_of_lt e.port (by omega)]
  unfold EndPoint.ToString sprintf
  rw [hf]
  simp only []
  rw [if_pos (by simp only [List.length_append, List.length_cons]; omega)]
  simp only [Option.map_some']
  rw [stdString_terminated]
  intro c hc
  simp only [List.mem_append, List.mem_cons] at hc
  rcases hc with hc | rfl | hc | rfl | hc | rfl | hc | rfl | hc
  · exact toDigits_ne_nul _ c hc
  · exact hdot
  · exact toDigits_ne_nul _ c hc
  · exact hdot
  · exact toDigits_ne_nul _ c hc
  · exact hdot
  · exact toDigits_ne_nul _ c hc
  · exact hcol
  · exact toDigits_ne_nul _ c hc

theorem toDigits_length_pos (n : Nat) : 1 ≤ (Nat.toDigits 10 n).length := by
  have hne := (isDecimalOf_toDigits n).1
  cases hd : Nat.toDigits 10 n with
  | nil => exact absurd hd hne
  | cons a t => simp

/-- The text `sprintf` stores for an endpoint within its field types, with its NUL, fits
the 256 bytes of `str`. -/
theorem EndPoint.sprintf_fits (e : EndPoint) (h : e.WellFormed) :
    (∃ buf, sprintf 256 "%d.%d.%d.%d"
      [toUInt32 e.ip0, toUInt32 e.ip1, toUInt32 e.ip2, toUInt32 e.ip3] = some buf ∧
      buf.length ≤ 16) ∧
    (∃ buf, sprintf 256 "%d.%d.%d.%d:%d"
      [toUInt32 e.ip0, toUInt32 e.ip1, toUInt32 e.ip2, toUInt32 e.ip3, toUInt32 e.port] =
        some buf ∧ buf.length ≤ 22) := by
  obtain ⟨h0, h1, h2, h3, hp⟩ := h
  have l0 := toDigits_length_le e.ip0 3 (by decide) (by omega)
  have l1 := toDigits_length_le e.ip1 3 (by decide) (by omega)
  have l2 := toDigits_length_le e.ip2 3 (by decide) (by omega)
  have l3 := toDigits_length_le e.ip3 3 (by decide) (by omega)
  have lp := toDigits_length_le e.port 5 (by decide) (by omega)
  have hf1 : vformat "%d.%d.%d.%d".toList
      [toUInt32 e.ip0, toUInt32 e.ip1, toUInt32 e.ip2, toUInt32 e.ip3] =
      some (Nat.toDigits 10 e.ip0 ++ '.' :: (Nat.toDigits 10 e.ip1 ++ '.' ::
        (Nat.toDigits 10 e.ip2 ++ '.' :: Nat.toDigits 10 e.ip3))) := by
    simp [vformat, printfD_of_lt e.ip0 (by omega), printfD_of_lt e.ip1 (by omega),
      printfD_of_lt e.ip2 (by omega), printfD_of_lt e.ip3 (by omega)]
  have hf2 : vformat "%d.%d.%d.%d:%d".toList
      [toUInt32 e.ip0, toUInt32 e.ip1, toUInt32 e.ip2, toUInt32 e.ip3, toUInt32 e.port] =
      some (Nat.toDigits 10 e.ip0 ++ '.' :: (Nat.toDigits 10 e.ip1 ++ '.' ::
        (Nat.toDigits 10 e.ip2 ++ '.' :: (Nat.toDigits 10 e.ip3 ++ ':' ::
          Nat.toDigits 10 e.port)))) := by
    simp [vformat, printfD_of_lt e.ip0 (by omega), printfD_of_lt e.ip1 (by omega),
      printfD_of_lt e.ip2 (by omega), printfD_of_lt e.ip3 (by omega),
      printfD_of_lt e.port (by omega)]
  constructor
  · unfold sprintf
    rw [hf1]
    simp only []
    rw [if_pos (by simp only [List.length_append, List.length_cons]; omega)]
    refine ⟨_, rfl, ?_⟩
    simp only [List.length_append, List.length_cons, List.length_nil]
    omega
  · unfold sprintf
    rw [hf2]
    simp only []
    rw [if_pos (by simp only [List.length_append, List.length_cons]; omega)]
    refine ⟨_, rfl, ?_⟩
    simp only [List.length_append, List.length_cons, List.length_nil]
    omega

/-- C19. The formatted text never overflows its 256-byte stack buffer: for every endpoint,
`IPToString()` returns between 7 and 15 characters and `ToString()` between 9 and 21, and
the `sprintf` into `char str[256]` writes at most 16 and 22 bytes, text and NUL. -/
theorem EndPoint.text_length_bounds (e : EndPoint) (h : e.WellFormed) :
    (∃ s, e.IPToString = some s ∧ 7 ≤ s.length ∧ s.length ≤ 15) ∧
    (∃ s, e.ToString = some s ∧ 9 ≤ s.length ∧ s.length ≤ 21) ∧
    (∃ buf, sprintf 256 "%d.%d.%d.%d"
      [toUInt32 e.ip0, toUInt32 e.ip1, toUInt32 e.ip2, toUInt32 e.ip3] = some buf ∧
      buf.length ≤ 16 ∧ buf.length ≤ 256) ∧
    (∃ buf, sprintf 256 "%d.%d.%d.%d:%d"
      [toUInt32 e.ip0, toUInt32 e.ip1, toUInt32 e.ip2, toUInt32 e.ip3, toUInt32 e.port] =
        some buf ∧ buf.length ≤ 22 ∧ buf.length ≤ 256) := by
  have hip := EndPoint.IPToString_chars e h
  have hto := EndPoint.ToString_chars e h
  obtain ⟨⟨b1, hb1, hl1⟩, ⟨b2, hb2, hl2⟩⟩ := EndPoint.sprintf_fits e h
  obtain ⟨h0, h1, h2, h3, hp⟩ := h
  have l0 := toDigits_length_le e.ip0 3 (by decide) (by omega)
  have l1 := toDigits_length_le e.ip1 3 (by decide) (by omega)
  have l2 := toDigits_length_le e.ip2 3 (by decide) (by omega)
  have l3 := toDigits_length_le e.ip3 3 (by decide) (by omega)
  have lp := toDigits_length_le e.port 5 (by decide) (by omega)
  have p0 := toDigits_length_pos e.ip0
  have p1 := toDigits_length_pos e.ip1
  have p2 := toDigits_length_pos e.ip2
  have p3 := toDigits_length_pos e.ip3
  have pp := toDigits_length_pos e.port
  refine ⟨⟨_, hip, ?_, ?_⟩, ⟨_, hto, ?_, ?_⟩, ⟨b1, hb1, hl1, by omega⟩, ⟨b2, hb2, hl2, by omega⟩⟩
  all_goals
    simp only [String.length, List.length_append, List.length_cons]
    omega

/-- Witness for C19: the shortest and the longest text forms. -/
theorem EndPoint.text_length_bounds_witness :
    (EndPoint.mk 0 0 0 0 0).WellFormed ∧ (EndPoint.mk 255 255 255 255 65535).WellFormed ∧
    (∃ s, (EndPoint.mk 255 255 255 255 65535).ToString = some s ∧ 9 ≤ s.length ∧
      s.length ≤ 21) ∧
    (EndPoint.mk 0 0 0 0 0).IPToString = some "0.0.0.0" ∧
    (EndPoint.mk 0 0 0 0 0).ToString = some "0.0.0.0:0" ∧
    (EndPoint.mk 255 255 255 255 65535).IPToString = some "255.255.255.255" ∧
    (EndPoint.mk 255 255 255 255 65535).ToString = some "255.255.255.255:65535" :=
  ⟨by decide, by decide,
   (EndPoint.text_length_bounds (EndPoint.mk 255 255 255 255 65535) (by decide)).2.1,
   by decide, by decide, by decide, by decide⟩

/-- Two texts that begin with digits and continue with a character that is no digit agree
on the digits, on that character and on the rest. -/
theorem digits_prefix_unique (l1 : List Char) : ∀ (l2 r1 r2 : List Char) (c1 c2 : Char),
    (∀ x ∈ l1, x.isDigit = true) → (∀ x ∈ l2, x.isDigit = true) →
    c1.isDigit = false → c2.isDigit = false →
    l1 ++ c1 :: r1 = l2 ++ c2 :: r2 → l1 = l2 ∧ c1 = c2 ∧ r1 = r2 := by
  induction l1 with
  | nil =>
    intro l2 r1 r2 c1 c2 _ h2 hc1 _ heq
    cases l2 with
    | nil =>
      simp only [List.nil_append, List.cons.injEq] at heq
      exact ⟨rfl, heq.1, heq.2⟩
    | cons b t2 =>
      simp only [List.nil_append, List.cons_append, List.cons.injEq] at heq
      have hb := h2 b (List.mem_cons_self _ _)
      rw [← heq.1, hc1] at hb
      exact absurd hb (by simp)
  | cons a t ih =>
    intro l2 r1 r2 c1 c2 h1 h2 hc1 hc2 heq
    cases l2 with
    | nil =>
      simp only [List.nil_append, List.cons_append, List.cons.injEq] at heq
      have ha := h1 a (List.mem_cons_self _ _)
      rw [heq.1, hc2] at ha
      exact absurd ha (by simp)
    | cons b t2 =>
      simp only [List.cons_append, List.cons.injEq] at heq
      obtain ⟨hab, hrest⟩ := heq
      obtain ⟨ht, hc, hr⟩ := ih t2 r1 r2 c1 c2
        (fun x hx => h1 x (List.mem_cons_of_mem _ hx))
        (fun x hx => h2 x (List.mem_cons_of_mem _ hx)) hc1 hc2 hrest
      exact ⟨by rw [hab, ht], hc, hr⟩

/-- The decimal numeral determines the number. -/
theorem toDigits_injective (m n : Nat) (h : Nat.toDigits 10 m = Nat.toDigits 10 n) : m = n := by
  have hm := (isDecimalOf_toDigits m).2.2.2
  have hn := (isDecimalOf_toDigits n).2.2.2
  rw [h] at hm
  omega

/-- C18. `EndPoint::ToString` is injective: two endpoints with the same text form have the
same four ip bytes and the same port. -/
theorem EndPoint.ToString_injective (e1 e2 : EndPoint) (h1 : e1.WellFormed)
    (h2 : e2.WellFormed) (h : e1.ToString = e2.ToString) :
    e1.ip0 = e2.ip0 ∧ e1.ip1 = e2.ip1 ∧ e1.ip2 = e2.ip2 ∧ e1.ip3 = e2.ip3 ∧
      e1.port = e2.port ∧ e1 = e2 := by
  rw [EndPoint.ToString_chars e1 h1, EndPoint.ToString_chars e2 h2] at h
  have h := congrArg String.data (Option.some.inj h)
  simp only at h
  have hdig : ∀ n : Nat, ∀ x ∈ Nat.toDigits 10 n, x.isDigit = true :=
    fun n => (isDecimalOf_toDigits n).2.1
  have hdot : ('.' : Char).isDigit = false := by decide
  have hcol : (':' : Char).isDigit = false := by decide
  obtain ⟨ha, _, h⟩ := digits_prefix_unique _ _ _ _ _ _ (hdig _) (hdig _) hdot hdot h
  obtain ⟨hb, _, h⟩ := digits_prefix_unique _ _ _ _ _ _ (hdig _) (hdig _) hdot hdot h
  obtain ⟨hc, _, h⟩ := digits_prefix_unique _ _ _ _ _ _ (hdig _) (hdig _) hdot hdot h
  obtain ⟨hd, _, hp⟩ := digits_prefix_unique _ _ _ _ _ _ (hdig _) (hdig _) hcol hcol h
  have e0 := toDigits_injective _ _ ha
  have e1' := toDigits_injective _ _ hb
  have e2' := toDigits_injective _ _ hc
  have e3 := toDigits_injective _ _ hd
  have e4 := toDigits_injective _ _ hp
  refine ⟨e0, e1', e2', e3, e4, ?_⟩
  cases e1
  cases e2
  simp only at e0 e1' e2' e3 e4
  simp only [EndPoint.mk.injEq]
  exact ⟨e0, e1', e2', e3, e4⟩

/-- Witness for C18: the endpoint `1.2.3.4:5` has the same text form as itself, and a text
form different from that of `1.2.3.45:0`. -/
theorem EndPoint.ToString_injective_witness :
    (EndPoint.mk 1 2 3 4 5).WellFormed ∧
    (EndPoint.mk 1 2 3 4 5).ToString = (EndPoint.mk 1 2 3 4 5).ToString ∧
    EndPoint.mk 1 2 3 4 5 = EndPoint.mk 1 2 3 4 5 ∧
    (EndPoint.mk 1 2 3 4 5).ToString ≠ (EndPoint.mk 1 2 3 45 0).ToString :=
  ⟨by decide, rfl,
   (EndPoint.ToString_injective (EndPoint.mk 1 2 3 4 5) (EndPoint.mk 1 2 3 4 5) (by decide)
      (by decide) rfl).2.2.2.2.2,
   by decide⟩

/-! ## Send queue of the delivery engine -/

theorem Sender.send_replace (m : Message) (s : Sender)
    (h : m.contentID ≠ 0 ∧ ∃ q ∈ s.queue, q.contentID = m.contentID) :
    Sender.send m s =
      { s with queue := s.queue.map (fun q => if q.contentID = m.contentID then m else q) } := by
  unfold Sender.send
  rw [if_pos h]

theorem Sender.send_append (m : Message) (s : Sender)
    (h : ¬ (m.contentID ≠ 0 ∧ ∃ q ∈ s.queue, q.contentID = m.contentID)) :
    Sender.send m s = { s with queue := s.queue ++ [m] } := by
  unfold Sender.send
  rw [if_neg h]

/-- Replacing the pending messages of one content ID by a message of that content ID does
not change how many messages of any content ID are pending. -/
theorem Sender.countP_replace (m : Message) (queue : List Message) (c : Nat) :
    (queue.map (fun q => if q.contentID = m.contentID then m else q)).countP
        (fun q => q.contentID = c) =
      queue.countP (fun q => q.contentID = c) := by
  induction queue with
  | nil => rfl
  | cons a t ih =>
    by_cases ha : a.contentID = m.contentID
    · simp only [List.map_cons, List.countP_cons, ih, ha, if_true]
    · simp only [List.map_cons, List.countP_cons, ih, if_neg ha]

/-- After a send, a message with the content ID of the sent message is pending. -/
theorem Sender.send_pending (m : Message) (s : Sender) :
    ∃ q ∈ (Sender.send m s).queue, q.contentID = m.contentID := by
  by_cases h : m.contentID ≠ 0 ∧ ∃ q ∈ s.queue, q.contentID = m.contentID
  · rw [Sender.send_replace m s h]
    obtain ⟨_, q, hq, hc⟩ := h
    refine ⟨m, ?_, rfl⟩
    simp only [List.mem_map]
    exact ⟨q, hq, by rw [if_pos hc]⟩
  · rw [Sender.send_append m s h]
    exact ⟨m, List.mem_append_right _ (List.mem_singleton_self _), rfl⟩

/-- A send keeps at most one pending message for each non-zero content ID. -/
theorem Sender.send_unique (m : Message) (s : Sender) (hu : Sender.UniqueContent s.queue) :
    Sender.UniqueContent (Sender.send m s).queue := by
  intro c hc
  by_cases h : m.contentID ≠ 0 ∧ ∃ q ∈ s.queue, q.contentID = m.contentID
  · rw [Sender.send_replace m s h]
    simp only [Sender.countP_replace]
    exact hu c hc
  · rw [Sender.send_append m s h]
    simp only [List.countP_append, List.countP_cons, List.countP_nil, Nat.zero_add]
    by_cases hmc : m.contentID = c
    · have hnone : s.queue.countP (fun q => q.contentID = c) = 0 := by
        rw [List.countP_eq_zero]
        intro q hq hqc
        simp only [decide_eq_true_eq] at hqc
        exact h ⟨by rw [hmc]; exact hc, q, hq, by rw [hqc, hmc]⟩
      simp only [hnone, hmc, decide_True, if_true]
      omega
    · have := hu c hc
      simp only [hmc, decide_False, Bool.false_eq_true, if_false]
      omega

/-- C16. Content-ID replacement on send.  Two messages with the same non-zero content ID
sent back-to-back before either is transmitted leave one pending message of that content
ID, the later one, in place of the earlier one; two messages with content ID 0 are both
queued, also when they are identical.  On a new connection the receiver then observes one
callback with the later payload in the first case and two callbacks in the second.  With
the default `ComputeContentID` every message has content ID 0. -/
theorem Sender.content_id_replacement :
    (∀ (s : Sender) (m1 m2 : Message), Sender.UniqueContent s.queue →
      m1.contentID = m2.contentID → m2.contentID ≠ 0 →
      ((s.send m1).send m2).queue.countP (fun q => q.contentID = m2.contentID) = 1 ∧
      m2 ∈ ((s.send m1).send m2).queue ∧
      (∀ q ∈ ((s.send m1).send m2).queue, q.contentID = m2.contentID → q = m2) ∧
      ((s.send m1).send m2).queue.length = (s.send m1).queue.length) ∧
    (∀ (s : Sender) (m1 m2 : Message), m1.contentID = 0 → m2.contentID = 0 →
      ((s.send m1).send m2).queue = s.queue ++ [m1, m2]) ∧
    (∀ (ordered : Bool) (next : Nat) (m1 m2 : Message),
      m1.contentID = m2.contentID → m2.contentID ≠ 0 →
      (((Sender.mk next []).send m1).send m2).queue = [m2] ∧
      (Receiver.receiveAll ordered (((Sender.mk next []).send m1).send m2).transmit.1
        Receiver.initial).callbacks =
          [{ packetId := next, messageId := m2.messageId, data := m2.payload,
             numBytes := m2.payload.length }]) ∧
    (∀ (ordered : Bool) (next : Nat) (m1 m2 : Message), m1.contentID = 0 → m2.contentID = 0 →
      (Receiver.receiveAll ordered (((Sender.mk next []).send m1).send m2).transmit.1
        Receiver.initial).callbacks =
          [{ packetId := next, messageId := m1.messageId, data := m1.payload,
             numBytes := m1.payload.length },
           { packetId := next + 1, messageId := m2.messageId, data := m2.payload,
             numBytes := m2.payload.length }]) ∧
    (∀ (s : Sender) (messageId : Nat) (payload : List Nat),
      (Message.make IMessageHandler.ComputeContentID messageId payload).contentID = 0 ∧
      (s.send (Message.make IMessageHandler.ComputeContentID messageId payload)).queue =
        s.queue ++ [Message.make IMessageHandler.ComputeContentID messageId payload]) := by
  have hzero : ∀ (s : Sender) (m : Message), m.contentID = 0 →
      (s.send m).queue = s.queue ++ [m] := by
    intro s m hm
    rw [Sender.send_append m s (fun h => h.1 hm)]
  have hsame : ∀ (s : Sender) (m1 m2 : Message), m1.contentID = m2.contentID →
      m2.contentID ≠ 0 →
      (s.send m1).send m2 = Sender.mk (s.send m1).nextPacketId ((s.send m1).queue.map
        (fun q => if q.contentID = m2.contentID then m2 else q)) := by
    intro s m1 m2 hc hne
    obtain ⟨q, hq, hqc⟩ := Sender.send_pending m1 s
    exact Sender.send_replace m2 _ ⟨hne, q, hq, by rw [hqc, hc]⟩
  refine ⟨?_, ?_, ?_, ?_, ?_⟩
  · intro s m1 m2 hu hc hne
    obtain ⟨q, hq, hqc⟩ := Sender.send_pending m1 s
    rw [hsame s m1 m2 hc hne]
    simp only [Sender.countP_replace, List.length_map, and_true]
    refine ⟨?_, ?_, ?_⟩
    · have hle := Sender.send_unique m1 s hu m2.contentID hne
      have hpos : 0 < (s.send m1).queue.countP (fun q => q.contentID = m2.contentID) := by
        rw [List.countP_pos_iff]
        exact ⟨q, hq, by simp only [decide_eq_true_eq]; rw [hqc, hc]⟩
      omega
    · simp only [List.mem_map]
      exact ⟨q, hq, by rw [if_pos (by rw [hqc, hc])]⟩
    · intro x hx hxc
      simp only [List.mem_map] at hx
      obtain ⟨y, _, hy⟩ := hx
      by_cases hyc : y.contentID = m2.contentID
      · rw [if_pos hyc] at hy; exact hy.symm
      · rw [if_neg hyc] at hy
        rw [← hy] at hxc
        exact absurd hxc hyc
  · intro s m1 m2 h1 h2
    rw [hzero _ m2 h2, hzero s m1 h1]
    simp
  · intro ordered next m1 m2 hc hne
    have hq1 : ((Sender.mk next []).send m1) = { nextPacketId := next, queue := [m1] } := by
      rw [Sender.send_append m1 _ (by simp)]
      rfl
    have hq2 : (((Sender.mk next []).send m1).send m2) =
        { nextPacketId := next, queue := [m2] } := by
      rw [hsame _ m1 m2 hc hne, hq1]
      simp [hc]
    rw [hq2]
    refine ⟨rfl, ?_⟩
    cases ordered <;>
      simp [Sender.transmit, Sender.packets, Receiver.receiveAll, Receiver.receive,
        Receiver.initial, Receiver.isStale, Receiver.dispatch]
  · intro ordered next m1 m2 h1 h2
    have hq : (((Sender.mk next []).send m1).send m2) =
        { nextPacketId := next, queue := [m1, m2] } := by
      have := hzero ((Sender.mk next []).send m1) m2 h2
      rw [hzero _ m1 h1] at this
      rw [Sender.send_append m2 _ (fun h => h.1 h2), Sender.send_append m1 _ (fun h => h.1 h1)]
      rfl
    rw [hq]
    cases ordered <;>
      simp [Sender.transmit, Sender.packets, Receiver.receiveAll, Receiver.receive,
        Receiver.initial, Receiver.isStale, Receiver.dispatch]
  · intro s messageId payload
    exact ⟨rfl, hzero s _ rfl⟩

/-- Witness for C16: on a new connection whose next packet identifier is 1, two messages
with content ID 7 leave the later one (payload 2) queued and observed, and two identical
messages with content ID 0 are observed twice. -/
theorem Sender.content_id_replacement_witness :
    (Message.mk 10 7 [1]).contentID = (Message.mk 10 7 [2]).contentID ∧
    (Message.mk 10 7 [2]).contentID ≠ 0 ∧
    (((Sender.mk 1 []).send (Message.mk 10 7 [1])).send (Message.mk 10 7 [2])).queue =
      [Message.mk 10 7 [2]] ∧
    (Receiver.receiveAll true
      (((Sender.mk 1 []).send (Message.mk 10 7 [1])).send (Message.mk 10 7 [2])).transmit.1
      Receiver.initial).callbacks = [{ packetId := 1, messageId := 10, data := [2], numBytes := 1 }] ∧
    (Receiver.receiveAll true
      (((Sender.mk 1 []).send (Message.mk 10 0 [5])).send (Message.mk 10 0 [5])).transmit.1
      Receiver.initial).callbacks =
        [{ packetId := 1, messageId := 10, data := [5], numBytes := 1 },
         { packetId := 2, messageId := 10, data := [5], numBytes := 1 }] :=
  ⟨rfl, by decide,
   (Sender.content_id_replacement.2.2.1 true 1 (Message.mk 10 7 [1]) (Message.mk 10 7 [2]) rfl
      (by decide)).1,
   (Sender.content_id_replacement.2.2.1 true 1 (Message.mk 10 7 [1]) (Message.mk 10 7 [2]) rfl
      (by decide)).2,
   Sender.content_id_replacement.2.2.2.1 true 1 (Message.mk 10 0 [5]) (Message.mk 10 0 [5]) rfl
      rfl⟩

end kNet
